import Mathlib

/-!
Shallow embedding of the `fastbin` zero-copy binary object format
(C++ runtime in `src/cpp/generated` and the shared templates), together
with theorems settling the specification claims.

A buffer is modelled as a list of byte values; `readByte` reduces modulo
256, reflecting that real memory cells hold values in `[0, 256)`.  Stores
of 64-bit words are modelled byte-by-byte in little-endian order, exactly
as the `std::memcpy`-based `load_trivial` / `store_trivial` helpers of
`_helpers.hpp` behave on a little-endian machine.  `size_t` arithmetic is
carried out on `Nat`, with wrap-around made explicit (`sub64`, masks)
wherever the C++ code can wrap.
-/

namespace Fastbin

/-- A byte buffer: element `i` is the byte at offset `i`. -/
abbrev Buf := List Nat

/-- Reading one byte of memory. Cells always hold values `< 256`. -/
def readByte (b : Buf) (i : Nat) : Nat := b.getD i 0 % 256

/-- Write the list `data` into the buffer starting at offset `off`
(writes past the end of the buffer are dropped, the C++ counterpart is
undefined behaviour there). -/
def writeBytes (b : Buf) (off : Nat) (data : List Nat) : Buf :=
  match data with
  | [] => b
  | d :: ds => writeBytes (b.set off d) (off + 1) ds

/-- Read `n` consecutive bytes starting at `off`. -/
def readBytes (b : Buf) (off n : Nat) : List Nat :=
  (List.range n).map (fun i => readByte b (off + i))

/-- Little-endian byte decomposition of `v`, `n` bytes. -/
def leEncode (v : Nat) : Nat → List Nat
  | 0 => []
  | n + 1 => v % 256 :: leEncode (v / 256) n

/-- Recompose a little-endian byte list into a number. -/
def leDecode : List Nat → Nat
  | [] => 0
  | d :: ds => d + 256 * leDecode ds

/-- Source `load_trivial<size_t>(buffer, offset)` (little-endian, 8 bytes). -/
def loadU64 (b : Buf) (off : Nat) : Nat := leDecode (readBytes b off 8)

/-- Source `store_trivial<size_t>(buffer, offset, v)` (little-endian, 8 bytes;
only `v mod 2^64` is representable, as for a C++ `size_t`). -/
def storeU64 (b : Buf) (off v : Nat) : Buf := writeBytes b off (leEncode v 8)

/-- Wrapping `size_t` subtraction `a - b` (two's complement, 64 bits). -/
def sub64 (a b : Nat) : Nat := (a + (2 ^ 64 - b % 2 ^ 64)) % 2 ^ 64

/-! ### Basic lemmas about the byte-memory model -/

theorem readByte_lt (b : Buf) (i : Nat) : readByte b i < 256 :=
  Nat.mod_lt _ (by norm_num)

theorem length_writeBytes (data : List Nat) (b : Buf) (off : Nat) :
    (writeBytes b off data).length = b.length := by
  induction data generalizing b off with
  | nil => rfl
  | cons d ds ih => simpa [writeBytes] using ih (b.set off d) (off + 1)

theorem readByte_writeBytes_of_lt (data : List Nat) (b : Buf) (off i : Nat)
    (h : i < off) : readByte (writeBytes b off data) i = readByte b i := by
  induction data generalizing b off with
  | nil => rfl
  | cons d ds ih =>
    rw [writeBytes, ih _ (off + 1) (by omega)]
    unfold readByte
    rw [List.getD_eq_getElem?_getD, List.getD_eq_getElem?_getD,
      List.getElem?_set_ne (by omega)]

theorem readByte_writeBytes_of_ge (data : List Nat) (b : Buf) (off i : Nat)
    (h : off + data.length ≤ i) :
    readByte (writeBytes b off data) i = readByte b i := by
  induction data generalizing b off with
  | nil => rfl
  | cons d ds ih =>
    rw [writeBytes, ih _ (off + 1) (by simp at h ⊢; omega)]
    unfold readByte
    rw [List.getD_eq_getElem?_getD, List.getD_eq_getElem?_getD,
      List.getElem?_set_ne (by simp at h; omega)]

theorem readByte_writeBytes_self (data : List Nat) (b : Buf) (off k : Nat)
    (hk : k < data.length) (hin : off + data.length ≤ b.length) :
    readByte (writeBytes b off data) (off + k) = data.getD k 0 % 256 := by
  induction data generalizing b off k with
  | nil => simp at hk
  | cons d ds ih =>
    rw [writeBytes]
    match k with
    | 0 =>
      rw [readByte_writeBytes_of_lt _ _ _ _ (by omega)]
      unfold readByte
      have hoff : off < b.length := by simp at hin; omega
      rw [Nat.add_zero, List.getD_eq_getElem?_getD,
        List.getElem?_set_self (by simpa using hoff)]
      rfl
    | k + 1 =>
      have := ih (b.set off d) (off + 1) k (by simpa using Nat.lt_of_succ_lt_succ hk)
        (by simp at hin ⊢; omega)
      rw [show off + (k + 1) = off + 1 + k by omega, this]
      rfl

theorem readByte_replicate (n i : Nat) :
    readByte (List.replicate n 0) i = 0 := by
  unfold readByte
  rcases Nat.lt_or_ge i n with h | h
  · rw [List.getD_eq_getElem?_getD, List.getElem?_replicate_of_lt h]; rfl
  · rw [List.getD_eq_getElem?_getD, List.getElem?_eq_none (by simpa using h)]; rfl

theorem length_leEncode (v n : Nat) : (leEncode v n).length = n := by
  induction n generalizing v with
  | zero => rfl
  | succ n ih => simp [leEncode, ih]

theorem leEncode_mem_lt (v n : Nat) : ∀ x ∈ leEncode v n, x < 256 := by
  induction n generalizing v with
  | zero => simp [leEncode]
  | succ n ih =>
    intro x hx
    rcases List.mem_cons.mp hx with h | h
    · subst h; exact Nat.mod_lt _ (by norm_num)
    · exact ih _ x h

theorem leDecode_leEncode (v n : Nat) :
    leDecode (leEncode v n) = v % 256 ^ n := by
  induction n generalizing v with
  | zero => simp [leEncode, leDecode, Nat.mod_one]
  | succ n ih =>
    rw [leEncode, leDecode, ih]
    conv_rhs => rw [pow_succ, mul_comm (256 ^ n) 256, Nat.mod_mul]

theorem leDecode_lt (l : List Nat) (h : ∀ x ∈ l, x < 256) :
    leDecode l < 256 ^ l.length := by
  induction l with
  | nil => simp [leDecode]
  | cons d ds ih =>
    have hd : d < 256 := h d (by simp)
    have hds := ih (fun x hx => h x (by simp [hx]))
    rw [leDecode]
    calc d + 256 * leDecode ds < 256 + 256 * leDecode ds := by omega
      _ = 256 * (leDecode ds + 1) := by ring
      _ ≤ 256 * 256 ^ ds.length := by
          exact Nat.mul_le_mul_left _ (by omega)
      _ = 256 ^ (d :: ds).length := by rw [List.length_cons, pow_succ, mul_comm]

theorem readBytes_writeBytes (data : List Nat) (b : Buf) (off : Nat)
    (hin : off + data.length ≤ b.length) (hlt : ∀ x ∈ data, x < 256) :
    readBytes (writeBytes b off data) off data.length = data := by
  unfold readBytes
  apply List.ext_getElem (by simp)
  intro i h1 h2
  simp only [List.getElem_map, List.getElem_range]
  rw [readByte_writeBytes_self data b off i (by simpa using h1) hin]
  have hi : i < data.length := by simpa using h1
  rw [List.getD_eq_getElem?_getD, List.getElem?_eq_getElem hi]
  exact Nat.mod_eq_of_lt (hlt _ (List.getElem_mem hi))

theorem readBytes_congr (b b' : Buf) (off n : Nat)
    (h : ∀ i, i < n → readByte b (off + i) = readByte b' (off + i)) :
    readBytes b off n = readBytes b' off n := by
  unfold readBytes
  apply List.ext_getElem (by simp)
  intro i h1 h2
  simp only [List.getElem_map, List.getElem_range]
  exact h i (by simpa using h1)

theorem readBytes_writeBytes_of_ge (data : List Nat) (b : Buf) (off off' n : Nat)
    (h : off' + data.length ≤ off) :
    readBytes (writeBytes b off' data) off n = readBytes b off n :=
  readBytes_congr _ _ _ _ fun i _ =>
    readByte_writeBytes_of_ge data b off' (off + i) (by omega)

theorem readBytes_writeBytes_of_lt (data : List Nat) (b : Buf) (off off' n : Nat)
    (h : off + n ≤ off') :
    readBytes (writeBytes b off' data) off n = readBytes b off n :=
  readBytes_congr _ _ _ _ fun i hi =>
    readByte_writeBytes_of_lt data b off' (off + i) (by omega)

theorem loadU64_lt (b : Buf) (off : Nat) : loadU64 b off < 2 ^ 64 := by
  have h := leDecode_lt (readBytes b off 8) (by
    intro x hx
    unfold readBytes at hx
    rcases List.mem_map.mp hx with ⟨i, _, hi⟩
    exact hi ▸ readByte_lt b (off + i))
  have hlen : (readBytes b off 8).length = 8 := by simp [readBytes]
  rw [hlen] at h
  calc loadU64 b off < 256 ^ 8 := h
    _ = 2 ^ 64 := by norm_num

theorem loadU64_storeU64 (b : Buf) (off v : Nat) (hin : off + 8 ≤ b.length) :
    loadU64 (storeU64 b off v) off = v % 2 ^ 64 := by
  unfold loadU64 storeU64
  have hlen : (leEncode v 8).length = 8 := length_leEncode v 8
  have h := readBytes_writeBytes (leEncode v 8) b off
    (by rw [hlen]; exact hin) (leEncode_mem_lt v 8)
  rw [hlen] at h
  rw [h, leDecode_leEncode]
  norm_num

theorem loadU64_writeBytes_of_ge (data : List Nat) (b : Buf) (off off' : Nat)
    (h : off' + data.length ≤ off) :
    loadU64 (writeBytes b off' data) off = loadU64 b off := by
  unfold loadU64
  rw [readBytes_writeBytes_of_ge data b off off' 8 h]

theorem loadU64_writeBytes_of_lt (data : List Nat) (b : Buf) (off off' : Nat)
    (h : off + 8 ≤ off') :
    loadU64 (writeBytes b off' data) off = loadU64 b off := by
  unfold loadU64
  rw [readBytes_writeBytes_of_lt data b off off' 8 h]

theorem sub64_eq {a b : Nat} (h : b ≤ a) (ha : a < 2 ^ 64) :
    sub64 a b = a - b := by
  unfold sub64
  have hb : b % 2 ^ 64 = b := Nat.mod_eq_of_lt (lt_of_le_of_lt h ha)
  rw [hb]
  have : a + (2 ^ 64 - b) = 2 ^ 64 + (a - b) := by omega
  rw [this, Nat.add_mod_left]
  exact Nat.mod_eq_of_lt (by omega)

/-! ### Bridges between the C++ bit operations and arithmetic -/

/-- Clearing the low `k` bits with a mask `2^n - 2^k` (e.g. `x & ~7` on a
64-bit `size_t` is `x &&& (2^64 - 2^3)`). -/
theorem land_high_mask {x : Nat} {n k : Nat} (hx : x < 2 ^ n) (hk : k ≤ n) :
    x &&& (2 ^ n - 2 ^ k) = 2 ^ k * (x / 2 ^ k) := by
  have hmask : 2 ^ n - 2 ^ k = 2 ^ k * (2 ^ (n - k) - 1) := by
    have h1 : 2 ^ k * 2 ^ (n - k) = 2 ^ n := by
      rw [← pow_add, Nat.add_sub_cancel' hk]
    have h2 : (1 : Nat) ≤ 2 ^ (n - k) := Nat.one_le_two_pow
    rw [Nat.mul_sub_left_distrib, Nat.mul_one, h1]
  apply Nat.eq_of_testBit_eq
  intro j
  rw [hmask, Nat.testBit_and, Nat.testBit_mul_pow_two, Nat.testBit_mul_pow_two,
    Nat.testBit_two_pow_sub_one]
  have hdiv : ∀ m, (x / 2 ^ k).testBit m = x.testBit (k + m) := by
    intro m
    rw [← Nat.shiftRight_eq_div_pow, Nat.testBit_shiftRight]
  rcases Nat.lt_or_ge j k with hj | hj
  · simp [Nat.not_le_of_lt hj]
  · have hjk : k + (j - k) = j := by omega
    rcases Nat.lt_or_ge j n with hjn | hjn
    · simp [hj, hdiv, hjk, Nat.lt_sub_of_add_lt, show j - k < n - k by omega]
    · have : x.testBit j = false :=
        Nat.testBit_lt_two_pow (lt_of_lt_of_le hx (Nat.pow_le_pow_right (by norm_num) hjn))
      simp [hj, hdiv, hjk, this, show ¬(j - k < n - k) by omega]

/-- Packing disjoint bit ranges: `a ||| (c <<< k)` is `a + c * 2^k` when
`a` fits in the low `k` bits. -/
theorem lor_shiftLeft_eq_add {a c k : Nat} (ha : a < 2 ^ k) :
    a ||| (c <<< k) = a + c * 2 ^ k := by
  rw [Nat.shiftLeft_eq, Nat.lor_comm, mul_comm c (2 ^ k),
    ← Nat.mul_add_lt_is_or ha c]
  omega

/-! ### Variable-length field regions

The generated setters for string / vector-of-primitive fields all share
the same body (e.g. `VectorOfUInt32::str` in `src/unnamed/part_004`):

    size_t contents_size   = value.size() * sizeof(element);
    size_t unaligned_size  = 8 + contents_size;
    size_t aligned_size    = (unaligned_size + 7) & ~7;
    size_t aligned_diff    = aligned_size - unaligned_size;
    size_t aligned_size_high = aligned_size | (aligned_diff << 56);
    store_trivial<size_t>(buffer, offset, aligned_size_high);
    std::copy(content, content + contents_size, buffer + offset + 8);

`content` below is the content byte list (`contents_size` bytes). -/
def writeVarRegion (b : Buf) (off : Nat) (content : List Nat) : Buf :=
  let unaligned_size := 8 + content.length
  let aligned_size := (unaligned_size + 7) &&& 0xFFFFFFFFFFFFFFF8
  let aligned_diff := sub64 aligned_size unaligned_size
  let aligned_size_high := aligned_size ||| (aligned_diff <<< 56)
  writeBytes (storeU64 b off aligned_size_high) (off + 8) content

/-- Generated `_<field>_size_aligned`: low 56 bits of the stored header. -/
def varSizeAligned (b : Buf) (off : Nat) : Nat :=
  loadU64 b off &&& 0x00FFFFFFFFFFFFFF

/-- Generated `_<field>_size_unaligned`: aligned size minus the padding
count held in the top byte of the stored header. -/
def varSizeUnaligned (b : Buf) (off : Nat) : Nat :=
  let stored := loadU64 b off
  sub64 (stored &&& 0x00FFFFFFFFFFFFFF) (stored >>> 56)

/-- Source `(8 + L)` rounded up to the next multiple of 8 (specification-side
shorthand used to state the claims). -/
def alignUp8 (u : Nat) : Nat := 8 * ((u + 7) / 8)

theorem length_writeVarRegion (b : Buf) (off : Nat) (content : List Nat) :
    (writeVarRegion b off content).length = b.length := by
  unfold writeVarRegion storeU64
  rw [length_writeBytes, length_writeBytes]

theorem readByte_writeVarRegion_of_lt (b : Buf) (off i : Nat) (content : List Nat)
    (h : i < off) :
    readByte (writeVarRegion b off content) i = readByte b i := by
  unfold writeVarRegion storeU64
  rw [readByte_writeBytes_of_lt _ _ _ _ (by omega),
    readByte_writeBytes_of_lt _ _ _ _ h]

theorem readByte_writeVarRegion_of_ge (b : Buf) (off i : Nat) (content : List Nat)
    (h : off + 8 + content.length ≤ i) :
    readByte (writeVarRegion b off content) i = readByte b i := by
  unfold writeVarRegion storeU64
  rw [readByte_writeBytes_of_ge _ _ _ _ (by omega),
    readByte_writeBytes_of_ge _ _ _ _ (by rw [length_leEncode]; omega)]

theorem loadU64_writeVarRegion_of_lt (b : Buf) (off off' : Nat) (content : List Nat)
    (h : off + 8 ≤ off') :
    loadU64 (writeVarRegion b off' content) off = loadU64 b off := by
  unfold writeVarRegion storeU64
  rw [loadU64_writeBytes_of_lt _ _ _ _ (by omega), loadU64_writeBytes_of_lt _ _ _ _ h]

theorem readBytes_writeVarRegion_of_lt (b : Buf) (off off' n : Nat) (content : List Nat)
    (h : off + n ≤ off') :
    readBytes (writeVarRegion b off' content) off n = readBytes b off n := by
  unfold writeVarRegion storeU64
  rw [readBytes_writeBytes_of_lt _ _ _ _ _ (by omega),
    readBytes_writeBytes_of_lt _ _ _ _ _ h]

theorem writeVarRegion_stored (b : Buf) (off : Nat) (content : List Nat)
    (hL : content.length ≤ 2 ^ 56 - 16) (hin : off + 8 ≤ b.length) :
    loadU64 (writeVarRegion b off content) off =
      alignUp8 (8 + content.length) +
        (alignUp8 (8 + content.length) - (8 + content.length)) * 2 ^ 56 := by
  set L := content.length with hLdef
  have hmask : (0xFFFFFFFFFFFFFFF8 : Nat) = 2 ^ 64 - 2 ^ 3 := by norm_num
  have hland : (8 + L + 7) &&& 0xFFFFFFFFFFFFFFF8 = 2 ^ 3 * ((8 + L + 7) / 2 ^ 3) := by
    rw [hmask]
    exact land_high_mask (by omega) (by norm_num)
  have halign : (8 + L + 7) &&& 0xFFFFFFFFFFFFFFF8 = alignUp8 (8 + L) := by
    rw [hland]; unfold alignUp8; norm_num
  have hge : 8 + L ≤ alignUp8 (8 + L) := by unfold alignUp8; omega
  have hlt56 : alignUp8 (8 + L) < 2 ^ 56 := by unfold alignUp8; omega
  unfold writeVarRegion
  rw [loadU64_writeBytes_of_lt _ _ _ _ (by omega)]
  simp only [← hLdef, halign]
  rw [sub64_eq hge (lt_trans hlt56 (by norm_num)),
    lor_shiftLeft_eq_add hlt56,
    loadU64_storeU64 _ _ _ hin]
  exact Nat.mod_eq_of_lt (by
    have hpad : alignUp8 (8 + L) - (8 + L) ≤ 7 := by unfold alignUp8; omega
    have : alignUp8 (8 + L) + (alignUp8 (8 + L) - (8 + L)) * 2 ^ 56
        ≤ 2 ^ 56 + 7 * 2 ^ 56 := by
      have := Nat.mul_le_mul_right (2 ^ 56) hpad
      omega
    omega)

theorem writeVarRegion_sizeAligned (b : Buf) (off : Nat) (content : List Nat)
    (hL : content.length ≤ 2 ^ 56 - 16) (hin : off + 8 ≤ b.length) :
    varSizeAligned (writeVarRegion b off content) off = alignUp8 (8 + content.length) := by
  unfold varSizeAligned
  rw [writeVarRegion_stored b off content hL hin]
  have hmask : (0x00FFFFFFFFFFFFFF : Nat) = 2 ^ 56 - 1 := by norm_num
  rw [hmask, Nat.and_pow_two_sub_one_eq_mod, Nat.add_mul_mod_self_right]
  exact Nat.mod_eq_of_lt (by unfold alignUp8; omega)

theorem writeVarRegion_pad (b : Buf) (off : Nat) (content : List Nat)
    (hL : content.length ≤ 2 ^ 56 - 16) (hin : off + 8 ≤ b.length) :
    loadU64 (writeVarRegion b off content) off >>> 56 =
      alignUp8 (8 + content.length) - (8 + content.length) := by
  rw [writeVarRegion_stored b off content hL hin, Nat.shiftRight_eq_div_pow]
  rw [Nat.add_mul_div_right _ _ (by norm_num : (0:Nat) < 2 ^ 56)]
  have : alignUp8 (8 + content.length) / 2 ^ 56 = 0 :=
    Nat.div_eq_of_lt (by unfold alignUp8; omega)
  omega

theorem writeVarRegion_sizeUnaligned (b : Buf) (off : Nat) (content : List Nat)
    (hL : content.length ≤ 2 ^ 56 - 16) (hin : off + 8 ≤ b.length) :
    varSizeUnaligned (writeVarRegion b off content) off = 8 + content.length := by
  unfold varSizeUnaligned
  have h1 : loadU64 (writeVarRegion b off content) off &&& 0x00FFFFFFFFFFFFFF
      = alignUp8 (8 + content.length) :=
    writeVarRegion_sizeAligned b off content hL hin
  simp only []
  rw [h1, writeVarRegion_pad b off content hL hin]
  have hge : 8 + content.length ≤ alignUp8 (8 + content.length) := by unfold alignUp8; omega
  rw [sub64_eq (by omega) (by unfold alignUp8 at *; omega)]
  omega

theorem writeVarRegion_content (b : Buf) (off : Nat) (content : List Nat)
    (hbytes : ∀ x ∈ content, x < 256) (hin : off + 8 + content.length ≤ b.length) :
    readBytes (writeVarRegion b off content) (off + 8) content.length = content := by
  unfold writeVarRegion
  exact readBytes_writeBytes content _ (off + 8)
    (by unfold storeU64; rw [length_writeBytes]; omega) hbytes

theorem alignUp8_mod (u : Nat) : alignUp8 u % 8 = 0 := by
  unfold alignUp8; omega

theorem alignUp8_pad_le (u : Nat) : alignUp8 u - u ≤ 7 := by
  unfold alignUp8; omega

theorem alignUp8_ge (u : Nat) : u ≤ alignUp8 u := by unfold alignUp8; omega

theorem alignUp8_ge_eight (u : Nat) (h : 1 ≤ u) : 8 ≤ alignUp8 u := by
  unfold alignUp8; omega

theorem length_readBytes (b : Buf) (off n : Nat) : (readBytes b off n).length = n := by
  simp [readBytes]

theorem readBytes_add (b : Buf) (off m n : Nat) :
    readBytes b off (m + n) = readBytes b off m ++ readBytes b (off + m) n := by
  unfold readBytes
  rw [List.range_add, List.map_append, List.map_map]
  congr 1
  apply List.map_congr_left
  intro i _
  simp only [Function.comp_apply]
  congr 1
  omega

/-! ### `VectorOfUInt32` (src/unnamed/part_004)

Record with two variable-size fields, `values : span<uint32>` then
`str : string_view`.  All member functions are translated one-to-one. -/

namespace VectorOfUInt32

/-- Source `VectorOfUInt32::create`: zero-fills the whole buffer. -/
def create (buffer_size : Nat) : Buf := List.replicate buffer_size 0

/-- Source `_values_offset()`. -/
def values_offset : Nat := 8

/-- Little-endian bytes of a list of `uint32` values, as copied by the
`values` setter (`contents_size = value.size() * 4` bytes). -/
def u32Bytes : List Nat → List Nat
  | [] => []
  | v :: vs => leEncode v 4 ++ u32Bytes vs

/-- Setter `values(span<uint32>)`. -/
def values_set (b : Buf) (value : List Nat) : Buf :=
  writeVarRegion b values_offset (u32Bytes value)

/-- Source `_values_size_aligned()`. -/
def values_size_aligned (b : Buf) : Nat := varSizeAligned b values_offset

/-- Source `_values_size_unaligned()`. -/
def values_size_unaligned (b : Buf) : Nat := varSizeUnaligned b values_offset

/-- Getter `values()`: a span of `n_bytes >> 2` uint32 values starting
8 bytes after the field offset (here decoded to the value list). -/
def values_get (b : Buf) : List Nat :=
  let n_bytes := sub64 (values_size_unaligned b) 8
  let count := n_bytes >>> 2
  (List.range count).map fun i => leDecode (readBytes b (values_offset + 8 + 4 * i) 4)

/-- Source `_str_offset()` = `_values_offset() + _values_size_aligned()`. -/
def str_offset (b : Buf) : Nat := values_offset + values_size_aligned b

/-- Setter `str(string_view)`. -/
def str_set (b : Buf) (value : List Nat) : Buf :=
  writeVarRegion b (str_offset b) value

/-- Source `_str_size_aligned()`. -/
def str_size_aligned (b : Buf) : Nat := varSizeAligned b (str_offset b)

/-- Source `_str_size_unaligned()`. -/
def str_size_unaligned (b : Buf) : Nat := varSizeUnaligned b (str_offset b)

/-- Getter `str()`: `n_bytes = _str_size_unaligned() - 8` content bytes. -/
def str_get (b : Buf) : List Nat :=
  let n_bytes := sub64 (str_size_unaligned b) 8
  readBytes b (str_offset b + 8) n_bytes

/-- Source `fastbin_calc_binary_size()` = `_str_offset() + _str_size_aligned()`. -/
def fastbin_calc_binary_size (b : Buf) : Nat := str_offset b + str_size_aligned b

/-- Source `fastbin_binary_size()` = `load_trivial<size_t>(buffer, 0)`. -/
def fastbin_binary_size (b : Buf) : Nat := loadU64 b 0

/-- Source `fastbin_finalize()` = `store_trivial<size_t>(buffer, 0, fastbin_calc_binary_size())`. -/
def fastbin_finalize (b : Buf) : Buf := storeU64 b 0 (fastbin_calc_binary_size b)

theorem length_u32Bytes (vals : List Nat) : (u32Bytes vals).length = 4 * vals.length := by
  induction vals with
  | nil => rfl
  | cons v vs ih => simp [u32Bytes, ih, length_leEncode]; omega

theorem u32Bytes_mem_lt (vals : List Nat) : ∀ x ∈ u32Bytes vals, x < 256 := by
  induction vals with
  | nil => simp [u32Bytes]
  | cons v vs ih =>
    intro x hx
    rcases List.mem_append.mp hx with h | h
    · exact leEncode_mem_lt v 4 x h
    · exact ih x h

/-- Decoding the `i`-th 4-byte chunk of an encoded uint32 list. -/
theorem leDecode_u32Bytes_chunk (vals : List Nat) (b : Buf) (off : Nat)
    (h : readBytes b off (4 * vals.length) = u32Bytes vals)
    (hv : ∀ v ∈ vals, v < 2 ^ 32) :
    ∀ i, (hi : i < vals.length) →
      leDecode (readBytes b (off + 4 * i) 4) = vals.get ⟨i, hi⟩ := by
  induction vals generalizing b off with
  | nil => intro i hi; simp at hi
  | cons v vs ih =>
    intro i hi
    have hsplit : readBytes b off (4 + 4 * vs.length)
        = readBytes b off 4 ++ readBytes b (off + 4) (4 * vs.length) :=
      readBytes_add b off 4 (4 * vs.length)
    have hlen4 : (readBytes b off 4).length = 4 := length_readBytes b off 4
    have hcons : readBytes b off 4 ++ readBytes b (off + 4) (4 * vs.length)
        = leEncode v 4 ++ u32Bytes vs := by
      rw [← hsplit, show 4 + 4 * vs.length = 4 * (v :: vs).length by simp; omega, h]
      rfl
    have hpair := List.append_inj hcons (by rw [hlen4, length_leEncode])
    match i with
    | 0 =>
      simp only [Nat.mul_zero, Nat.add_zero]
      rw [hpair.1, leDecode_leEncode]
      have hvlt : v < 2 ^ 32 := hv v (by simp)
      rw [Nat.mod_eq_of_lt (lt_of_lt_of_le hvlt (by norm_num))]
      rfl
    | i + 1 =>
      have := ih b (off + 4) hpair.2 (fun w hw => hv w (by simp [hw]))
        i (by simpa using Nat.lt_of_succ_lt_succ hi)
      rw [show off + 4 * (i + 1) = off + 4 + 4 * i by omega, this]
      rfl

theorem length_values_set (b : Buf) (vals : List Nat) :
    (values_set b vals).length = b.length := length_writeVarRegion _ _ _

theorem length_str_set (b : Buf) (s : List Nat) :
    (str_set b s).length = b.length := length_writeVarRegion _ _ _

/-- After `values(...)`, the `str` field starts right after the aligned
`values` region. -/
theorem str_offset_values_set (b : Buf) (vals : List Nat)
    (hnv : 4 * vals.length ≤ 2 ^ 56 - 16) (hin : 16 ≤ b.length) :
    str_offset (values_set b vals) = 8 + alignUp8 (8 + 4 * vals.length) := by
  unfold str_offset values_size_aligned values_set values_offset
  rw [show varSizeAligned (writeVarRegion b 8 (u32Bytes vals)) 8
      = alignUp8 (8 + (u32Bytes vals).length) from
    writeVarRegion_sizeAligned b 8 (u32Bytes vals)
      (by rw [length_u32Bytes]; exact hnv) (by omega)]
  rw [length_u32Bytes]

/-- Writing the `str` field does not disturb the `values` header. -/
theorem loadU64_values_str_set (b : Buf) (s : List Nat)
    (h : 16 ≤ str_offset b) :
    loadU64 (str_set b s) values_offset = loadU64 b values_offset := by
  unfold str_set values_offset
  exact loadU64_writeVarRegion_of_lt b 8 (str_offset b) s (by omega)

end VectorOfUInt32

/-- Claim C1: For every variable-size field (string or vector-of-primitives)
written with content of length `L` bytes, the setter stores an 8-byte
header whose low 56 bits hold `aligned_len = alignUp8 (8 + L)` and whose
top byte holds `pad = aligned_len - (8 + L)`; `aligned_len % 8 = 0`,
`pad ≤ 7`, and the getter recovers exactly the `L` content bytes — shown
for both variable-size fields of `VectorOfUInt32` (`values`, a uint32
vector of `4 * n` content bytes, then `str`). -/
theorem fastbin_C1_var_header_and_recovery (b : Buf) (vals s : List Nat)
    (hv : ∀ v ∈ vals, v < 2 ^ 32)
    (hs : ∀ c ∈ s, c < 256)
    (hnv : 4 * vals.length ≤ 2 ^ 56 - 16)
    (hns : s.length ≤ 2 ^ 56 - 16)
    (hbuf : 8 + alignUp8 (8 + 4 * vals.length) + alignUp8 (8 + s.length) ≤ b.length) :
    VectorOfUInt32.values_size_aligned (VectorOfUInt32.str_set (VectorOfUInt32.values_set b vals) s)
        = alignUp8 (8 + 4 * vals.length) ∧
    loadU64 (VectorOfUInt32.str_set (VectorOfUInt32.values_set b vals) s)
        VectorOfUInt32.values_offset >>> 56
        = alignUp8 (8 + 4 * vals.length) - (8 + 4 * vals.length) ∧
    alignUp8 (8 + 4 * vals.length) % 8 = 0 ∧
    alignUp8 (8 + 4 * vals.length) - (8 + 4 * vals.length) ≤ 7 ∧
    VectorOfUInt32.values_get (VectorOfUInt32.str_set (VectorOfUInt32.values_set b vals) s)
        = vals ∧
    VectorOfUInt32.str_size_aligned (VectorOfUInt32.str_set (VectorOfUInt32.values_set b vals) s)
        = alignUp8 (8 + s.length) ∧
    loadU64 (VectorOfUInt32.str_set (VectorOfUInt32.values_set b vals) s)
        (VectorOfUInt32.str_offset (VectorOfUInt32.str_set (VectorOfUInt32.values_set b vals) s))
        >>> 56 = alignUp8 (8 + s.length) - (8 + s.length) ∧
    alignUp8 (8 + s.length) % 8 = 0 ∧
    alignUp8 (8 + s.length) - (8 + s.length) ≤ 7 ∧
    VectorOfUInt32.str_get (VectorOfUInt32.str_set (VectorOfUInt32.values_set b vals) s)
        = s := by
  set n := vals.length with hn
  set Lv := 4 * n with hLv
  set Av := alignUp8 (8 + Lv) with hAv
  set Ls := s.length with hLs
  set As := alignUp8 (8 + Ls) with hAs
  have hAvge : 8 + Lv ≤ Av := alignUp8_ge _
  have hAsge : 8 + Ls ≤ As := alignUp8_ge _
  have hin16 : 16 ≤ b.length := by omega
  set b1 := VectorOfUInt32.values_set b vals with hb1
  have hb1len : b1.length = b.length := VectorOfUInt32.length_values_set b vals
  have hsoff : VectorOfUInt32.str_offset b1 = 8 + Av :=
    VectorOfUInt32.str_offset_values_set b vals hnv hin16
  set b2 := VectorOfUInt32.str_set b1 s with hb2
  have hb2eq : b2 = writeVarRegion b1 (8 + Av) s := by
    rw [hb2]; unfold VectorOfUInt32.str_set; rw [hsoff]
  have hb2len : b2.length = b.length := by
    rw [hb2eq, length_writeVarRegion, hb1len]
  -- the values header survives the str write
  have hhdrv : loadU64 b2 VectorOfUInt32.values_offset = loadU64 b1 VectorOfUInt32.values_offset :=
    VectorOfUInt32.loadU64_values_str_set b1 s (by rw [hsoff]; omega)
  have hvu32len : (VectorOfUInt32.u32Bytes vals).length = Lv :=
    VectorOfUInt32.length_u32Bytes vals
  have hv_aligned : VectorOfUInt32.values_size_aligned b2 = Av := by
    unfold VectorOfUInt32.values_size_aligned varSizeAligned
    rw [hhdrv, hb1]
    unfold VectorOfUInt32.values_set VectorOfUInt32.values_offset
    have := writeVarRegion_sizeAligned b 8 (VectorOfUInt32.u32Bytes vals)
      (by rw [hvu32len]; exact hnv) (by omega)
    unfold varSizeAligned at this
    rw [this, hvu32len]
  have hv_pad : loadU64 b2 VectorOfUInt32.values_offset >>> 56 = Av - (8 + Lv) := by
    rw [hhdrv, hb1]
    unfold VectorOfUInt32.values_set VectorOfUInt32.values_offset
    rw [writeVarRegion_pad b 8 (VectorOfUInt32.u32Bytes vals)
      (by rw [hvu32len]; exact hnv) (by omega), hvu32len]
  have hv_unaligned : VectorOfUInt32.values_size_unaligned b2 = 8 + Lv := by
    unfold VectorOfUInt32.values_size_unaligned varSizeUnaligned
    simp only []
    rw [hhdrv, hb1]
    unfold VectorOfUInt32.values_set VectorOfUInt32.values_offset
    have := writeVarRegion_sizeUnaligned b 8 (VectorOfUInt32.u32Bytes vals)
      (by rw [hvu32len]; exact hnv) (by omega)
    unfold varSizeUnaligned at this
    simp only [] at this
    rw [this, hvu32len]
  -- values content bytes survive the str write
  have hvcontent : readBytes b2 16 Lv = VectorOfUInt32.u32Bytes vals := by
    rw [hb2eq, readBytes_writeVarRegion_of_lt _ _ _ _ _ (by omega)]
    have := writeVarRegion_content b 8 (VectorOfUInt32.u32Bytes vals)
      (VectorOfUInt32.u32Bytes_mem_lt vals) (by rw [hvu32len]; omega)
    rw [hvu32len] at this
    exact this
  have hv_get : VectorOfUInt32.values_get b2 = vals := by
    unfold VectorOfUInt32.values_get
    simp only []
    rw [hv_unaligned, sub64_eq (by omega) (by omega), Nat.add_sub_cancel_left]
    have hcount : Lv >>> 2 = n := by
      rw [Nat.shiftRight_eq_div_pow, hLv]
      norm_num
    rw [hcount]
    apply List.ext_getElem (by simp [hn])
    intro i h1 h2
    simp only [List.getElem_map, List.getElem_range]
    have := VectorOfUInt32.leDecode_u32Bytes_chunk vals b2 16 hvcontent
      hv i (by simpa using h2)
    unfold VectorOfUInt32.values_offset
    rw [show (8 : Nat) + 8 = 16 by norm_num, this]
    simp [List.get_eq_getElem]
  have hsoff2 : VectorOfUInt32.str_offset b2 = 8 + Av := by
    unfold VectorOfUInt32.str_offset
    rw [hv_aligned]
    rfl
  have hs_aligned : VectorOfUInt32.str_size_aligned b2 = As := by
    unfold VectorOfUInt32.str_size_aligned
    rw [hsoff2, hb2eq]
    have := writeVarRegion_sizeAligned b1 (8 + Av) s hns (by omega)
    rw [this]
  have hs_pad : loadU64 b2 (VectorOfUInt32.str_offset b2) >>> 56 = As - (8 + Ls) := by
    rw [hsoff2, hb2eq]
    exact writeVarRegion_pad b1 (8 + Av) s hns (by omega)
  have hs_unaligned : VectorOfUInt32.str_size_unaligned b2 = 8 + Ls := by
    unfold VectorOfUInt32.str_size_unaligned
    rw [hsoff2, hb2eq]
    exact writeVarRegion_sizeUnaligned b1 (8 + Av) s hns (by omega)
  have hs_get : VectorOfUInt32.str_get b2 = s := by
    unfold VectorOfUInt32.str_get
    simp only []
    rw [hs_unaligned, sub64_eq (by omega) (by omega), Nat.add_sub_cancel_left, hsoff2, hb2eq]
    exact writeVarRegion_content b1 (8 + Av) s hs (by omega)
  exact ⟨hv_aligned, hv_pad, alignUp8_mod _, alignUp8_pad_le _, hv_get,
    hs_aligned, hs_pad, alignUp8_mod _, alignUp8_pad_le _, hs_get⟩

/-- Witness for C1 at a concrete input: two uint32 values and the 2-byte
string `"hi"` in a zeroed 64-byte buffer. -/
theorem fastbin_C1_witness :
    (∀ v ∈ [1, 4294967295], v < 2 ^ 32) ∧
    (∀ c ∈ [104, 105], c < 256) ∧
    (8 + alignUp8 (8 + 4 * [1, 4294967295].length) + alignUp8 (8 + [104, 105].length)
      ≤ (List.replicate 64 0 : Buf).length) ∧
    VectorOfUInt32.values_size_aligned
      (VectorOfUInt32.str_set
        (VectorOfUInt32.values_set (List.replicate 64 0) [1, 4294967295]) [104, 105]) = 16 ∧
    VectorOfUInt32.values_get
      (VectorOfUInt32.str_set
        (VectorOfUInt32.values_set (List.replicate 64 0) [1, 4294967295]) [104, 105])
      = [1, 4294967295] ∧
    VectorOfUInt32.str_get
      (VectorOfUInt32.str_set
        (VectorOfUInt32.values_set (List.replicate 64 0) [1, 4294967295]) [104, 105])
      = [104, 105] :=
  have h := fastbin_C1_var_header_and_recovery (List.replicate 64 0) [1, 4294967295] [104, 105]
    (by decide) (by decide) (by decide) (by decide) (by decide)
  ⟨by decide, by decide, by decide, h.1, h.2.2.2.2.1, h.2.2.2.2.2.2.2.2.2⟩

/-! ### Generated per-record offset/size functions (claim C2)

`ChildFixed` (src/cpp/generated/ChildFixed.hpp): fixed-size record,
two int32 fields each occupying an 8-byte slot. -/

namespace ChildFixed

/-- Source `fastbin_field1_offset()`. -/
def field1_offset : Nat := 0

/-- Source `fastbin_field1_size()`. -/
def field1_size : Nat := 8

/-- Source `fastbin_field2_offset()`. -/
def field2_offset : Nat := 8

/-- Source `fastbin_field2_size()`. -/
def field2_size : Nat := 8

/-- Source `fastbin_binary_size()` / `fastbin_compute_binary_size()`. -/
def binary_size : Nat := 16

/-- Setter `field1(int32_t)`: a 4-byte store at the field offset. -/
def field1_set (b : Buf) (value : Nat) : Buf :=
  writeBytes b field1_offset (leEncode value 4)

/-- Getter `field1()`. -/
def field1_get (b : Buf) : Nat := leDecode (readBytes b field1_offset 4)

/-- Setter `field2(int32_t)`. -/
def field2_set (b : Buf) (value : Nat) : Buf :=
  writeBytes b field2_offset (leEncode value 4)

/-- Getter `field2()`. -/
def field2_get (b : Buf) : Nat := leDecode (readBytes b field2_offset 4)

end ChildFixed

/-! `ChildVar` (src/cpp/generated/ChildVar.hpp): variable-size record,
`field1 : int32` then `field2 : string_view`; the generated offsets are
emitted as constants. -/

namespace ChildVar

/-- Source `_field1_offset()` (source constant `8`). -/
def field1_offset : Nat := 8

/-- Source `_field1_size_aligned()` (source constant `8`). -/
def field1_size_aligned : Nat := 8

/-- Source `_field2_offset()` (source constant `16`). -/
def field2_offset : Nat := 16

end ChildVar

/-! `StreamOrderbook` (src/cpp/generated/StreamOrderbook.hpp):
variable-size record with five fixed fields, a string field, two more
fixed fields and four float64-vector fields. -/

namespace StreamOrderbook

/-- Source `fastbin_server_time_offset()`. -/
def server_time_offset : Nat := 8

/-- Source `fastbin_server_time_size()`. -/
def server_time_size : Nat := 8

/-- Source `fastbin_recv_time_offset()`. -/
def recv_time_offset : Nat := server_time_offset + server_time_size

/-- Source `fastbin_recv_time_size()`. -/
def recv_time_size : Nat := 8

/-- Source `fastbin_cts_offset()`. -/
def cts_offset : Nat := recv_time_offset + recv_time_size

/-- Source `fastbin_cts_size()`. -/
def cts_size : Nat := 8

/-- Source `fastbin_type_offset()`. -/
def type_offset : Nat := cts_offset + cts_size

/-- Source `fastbin_type_size()`. -/
def type_size : Nat := 8

/-- Source `fastbin_depth_offset()`. -/
def depth_offset : Nat := type_offset + type_size

/-- Source `fastbin_depth_size()`. -/
def depth_size : Nat := 8

/-- Source `fastbin_symbol_offset()`. -/
def symbol_offset : Nat := depth_offset + depth_size

/-- Source `fastbin_symbol_size()`: low 56 bits of the stored header. -/
def symbol_size (b : Buf) : Nat := loadU64 b symbol_offset &&& 0x00FFFFFFFFFFFFFF

/-- Source `fastbin_update_id_offset()`. -/
def update_id_offset (b : Buf) : Nat := symbol_offset + symbol_size b

/-- Source `fastbin_update_id_size()`. -/
def update_id_size : Nat := 8

/-- Source `fastbin_seq_num_offset()`. -/
def seq_num_offset (b : Buf) : Nat := update_id_offset b + update_id_size

/-- Source `fastbin_seq_num_size()`. -/
def seq_num_size : Nat := 8

/-- Source `fastbin_bid_prices_offset()`. -/
def bid_prices_offset (b : Buf) : Nat := seq_num_offset b + seq_num_size

/-- Source `fastbin_bid_prices_size()`: the stored word (these vector setters
store `8 + 8*count`, already 8-byte aligned, with no pad byte). -/
def bid_prices_size (b : Buf) : Nat := loadU64 b (bid_prices_offset b)

/-- Source `fastbin_bid_quantities_offset()`. -/
def bid_quantities_offset (b : Buf) : Nat := bid_prices_offset b + bid_prices_size b

/-- Source `fastbin_bid_quantities_size()`. -/
def bid_quantities_size (b : Buf) : Nat := loadU64 b (bid_quantities_offset b)

/-- Source `fastbin_ask_prices_offset()`. -/
def ask_prices_offset (b : Buf) : Nat := bid_quantities_offset b + bid_quantities_size b

/-- Source `fastbin_ask_prices_size()`. -/
def ask_prices_size (b : Buf) : Nat := loadU64 b (ask_prices_offset b)

/-- Source `fastbin_ask_quantities_offset()`. -/
def ask_quantities_offset (b : Buf) : Nat := ask_prices_offset b + ask_prices_size b

/-- Source `fastbin_ask_quantities_size()`. -/
def ask_quantities_size (b : Buf) : Nat := loadU64 b (ask_quantities_offset b)

/-- Source `fastbin_compute_binary_size()`. -/
def compute_binary_size (b : Buf) : Nat := ask_quantities_offset b + ask_quantities_size b

/-- Source `fastbin_finalize()`. -/
def finalize (b : Buf) : Buf := storeU64 b 0 (compute_binary_size b)

/-- Source `fastbin_binary_size()`. -/
def binary_size (b : Buf) : Nat := loadU64 b 0

end StreamOrderbook

/-- Claim C2: Offset chain invariant: for every embedded generated record
type and every field `i > 0`, `offset(i) = offset(i-1) + size(i-1)`;
field 0 of the variable-size records (`StreamOrderbook`, `ChildVar`,
`VectorOfUInt32`) is at offset 8 (after the record's 8-byte size header),
field 0 of the fixed-size record `ChildFixed` is at offset 0. -/
theorem fastbin_C2_offset_chain (b : Buf) :
    ChildFixed.field1_offset = 0 ∧
    ChildFixed.field2_offset = ChildFixed.field1_offset + ChildFixed.field1_size ∧
    ChildFixed.binary_size = ChildFixed.field2_offset + ChildFixed.field2_size ∧
    ChildVar.field1_offset = 8 ∧
    ChildVar.field2_offset = ChildVar.field1_offset + ChildVar.field1_size_aligned ∧
    VectorOfUInt32.values_offset = 8 ∧
    VectorOfUInt32.str_offset b
      = VectorOfUInt32.values_offset + VectorOfUInt32.values_size_aligned b ∧
    StreamOrderbook.server_time_offset = 8 ∧
    StreamOrderbook.recv_time_offset
      = StreamOrderbook.server_time_offset + StreamOrderbook.server_time_size ∧
    StreamOrderbook.cts_offset
      = StreamOrderbook.recv_time_offset + StreamOrderbook.recv_time_size ∧
    StreamOrderbook.type_offset
      = StreamOrderbook.cts_offset + StreamOrderbook.cts_size ∧
    StreamOrderbook.depth_offset
      = StreamOrderbook.type_offset + StreamOrderbook.type_size ∧
    StreamOrderbook.symbol_offset
      = StreamOrderbook.depth_offset + StreamOrderbook.depth_size ∧
    StreamOrderbook.update_id_offset b
      = StreamOrderbook.symbol_offset + StreamOrderbook.symbol_size b ∧
    StreamOrderbook.seq_num_offset b
      = StreamOrderbook.update_id_offset b + StreamOrderbook.update_id_size ∧
    StreamOrderbook.bid_prices_offset b
      = StreamOrderbook.seq_num_offset b + StreamOrderbook.seq_num_size ∧
    StreamOrderbook.bid_quantities_offset b
      = StreamOrderbook.bid_prices_offset b + StreamOrderbook.bid_prices_size b ∧
    StreamOrderbook.ask_prices_offset b
      = StreamOrderbook.bid_quantities_offset b + StreamOrderbook.bid_quantities_size b ∧
    StreamOrderbook.ask_quantities_offset b
      = StreamOrderbook.ask_prices_offset b + StreamOrderbook.ask_prices_size b ∧
    StreamOrderbook.compute_binary_size b
      = StreamOrderbook.ask_quantities_offset b + StreamOrderbook.ask_quantities_size b :=
  ⟨rfl, rfl, rfl, rfl, rfl, rfl, rfl, rfl, rfl, rfl,
    rfl, rfl, rfl, rfl, rfl, rfl, rfl, rfl, rfl, rfl⟩

theorem varSizeAligned_lt (b : Buf) (off : Nat) : varSizeAligned b off < 2 ^ 56 := by
  unfold varSizeAligned
  rw [show (0x00FFFFFFFFFFFFFF : Nat) = 2 ^ 56 - 1 by norm_num,
    Nat.and_pow_two_sub_one_eq_mod]
  exact Nat.mod_lt _ (by norm_num)

theorem varSizeAligned_storeU64_zero (b : Buf) (off v : Nat) (h : 8 ≤ off) :
    varSizeAligned (storeU64 b 0 v) off = varSizeAligned b off := by
  unfold varSizeAligned storeU64
  rw [loadU64_writeBytes_of_ge _ _ _ _ (by rw [length_leEncode]; omega)]

namespace VectorOfUInt32

theorem calc_binary_size_lt (b : Buf) : fastbin_calc_binary_size b < 2 ^ 64 := by
  unfold fastbin_calc_binary_size str_offset str_size_aligned
    values_size_aligned values_offset
  have h1 := varSizeAligned_lt b 8
  have h2 := varSizeAligned_lt b (str_offset b)
  have h3 := varSizeAligned_lt b (8 + varSizeAligned b 8)
  omega

theorem calc_binary_size_finalize (b : Buf) :
    fastbin_calc_binary_size (fastbin_finalize b) = fastbin_calc_binary_size b := by
  have hso : str_offset (fastbin_finalize b) = str_offset b := by
    unfold str_offset values_size_aligned values_offset fastbin_finalize
    rw [varSizeAligned_storeU64_zero b 8 _ (by omega)]
  have h8 : 8 ≤ str_offset b := by
    unfold str_offset values_offset; omega
  unfold fastbin_calc_binary_size str_size_aligned
  rw [hso]
  unfold fastbin_finalize
  rw [varSizeAligned_storeU64_zero b (str_offset b) _ h8]

end VectorOfUInt32

/-- Claim C4: For a record built by setting fields in schema order, after
`fastbin_finalize` the stored size `fastbin_binary_size()` equals
`fastbin_calc_binary_size()` (which is `offset(last) + size(last)`), and
a second `fastbin_finalize` without intervening writes yields the same
`fastbin_binary_size()`.  Shown for `VectorOfUInt32`. -/
theorem fastbin_C4_finalize_idempotent (b : Buf) (vals s : List Nat)
    (h8 : 8 ≤ b.length) :
    VectorOfUInt32.fastbin_binary_size
        (VectorOfUInt32.fastbin_finalize
          (VectorOfUInt32.str_set (VectorOfUInt32.values_set b vals) s))
      = VectorOfUInt32.fastbin_calc_binary_size
        (VectorOfUInt32.fastbin_finalize
          (VectorOfUInt32.str_set (VectorOfUInt32.values_set b vals) s)) ∧
    VectorOfUInt32.fastbin_calc_binary_size
        (VectorOfUInt32.str_set (VectorOfUInt32.values_set b vals) s)
      = VectorOfUInt32.str_offset
          (VectorOfUInt32.str_set (VectorOfUInt32.values_set b vals) s)
        + VectorOfUInt32.str_size_aligned
          (VectorOfUInt32.str_set (VectorOfUInt32.values_set b vals) s) ∧
    VectorOfUInt32.fastbin_binary_size
        (VectorOfUInt32.fastbin_finalize
          (VectorOfUInt32.fastbin_finalize
            (VectorOfUInt32.str_set (VectorOfUInt32.values_set b vals) s)))
      = VectorOfUInt32.fastbin_binary_size
        (VectorOfUInt32.fastbin_finalize
          (VectorOfUInt32.str_set (VectorOfUInt32.values_set b vals) s)) := by
  set r := VectorOfUInt32.str_set (VectorOfUInt32.values_set b vals) s with hr
  have hrlen : r.length = b.length := by
    rw [hr, VectorOfUInt32.length_str_set, VectorOfUInt32.length_values_set]
  have hload : ∀ x : Buf, 8 ≤ x.length →
      VectorOfUInt32.fastbin_binary_size (VectorOfUInt32.fastbin_finalize x)
        = VectorOfUInt32.fastbin_calc_binary_size x := by
    intro x hx
    unfold VectorOfUInt32.fastbin_binary_size VectorOfUInt32.fastbin_finalize
    rw [loadU64_storeU64 _ _ _ (by omega)]
    exact Nat.mod_eq_of_lt (VectorOfUInt32.calc_binary_size_lt x)
  have hflen : (VectorOfUInt32.fastbin_finalize r).length = r.length := by
    unfold VectorOfUInt32.fastbin_finalize storeU64
    rw [length_writeBytes]
  refine ⟨?_, rfl, ?_⟩
  · rw [hload r (by omega), VectorOfUInt32.calc_binary_size_finalize r]
  · rw [hload _ (by omega), hload r (by omega),
      VectorOfUInt32.calc_binary_size_finalize r]

/-- Witness for C4 at a concrete input. -/
theorem fastbin_C4_witness :
    8 ≤ (List.replicate 32 0 : Buf).length ∧
    VectorOfUInt32.fastbin_binary_size
        (VectorOfUInt32.fastbin_finalize
          (VectorOfUInt32.str_set
            (VectorOfUInt32.values_set (List.replicate 32 0) [1]) [104]))
      = VectorOfUInt32.fastbin_calc_binary_size
        (VectorOfUInt32.fastbin_finalize
          (VectorOfUInt32.str_set
            (VectorOfUInt32.values_set (List.replicate 32 0) [1]) [104])) ∧
    VectorOfUInt32.fastbin_binary_size
        (VectorOfUInt32.fastbin_finalize
          (VectorOfUInt32.fastbin_finalize
            (VectorOfUInt32.str_set
              (VectorOfUInt32.values_set (List.replicate 32 0) [1]) [104])))
      = VectorOfUInt32.fastbin_binary_size
        (VectorOfUInt32.fastbin_finalize
          (VectorOfUInt32.str_set
            (VectorOfUInt32.values_set (List.replicate 32 0) [1]) [104])) :=
  have h := fastbin_C4_finalize_idempotent (List.replicate 32 0) [1] [104] (by decide)
  ⟨by decide, h.1, h.2.2⟩

/-- Claim C9 counterexample: The claim includes overwriting a
variable-size field with shorter content before any later field is
written; after `values([1,1,1])` is overwritten by `values([1])`, the
current `values` region is `[8, 24)` with content `[16, 20)` and pad
bytes `[20, 24)` — but byte 20 still holds a stale content byte `1` of
the first write, so the pad bytes are not zero. -/
theorem fastbin_C9_counterexample :
    VectorOfUInt32.values_size_unaligned
        (VectorOfUInt32.fastbin_finalize
          (VectorOfUInt32.str_set
            (VectorOfUInt32.values_set
              (VectorOfUInt32.values_set (VectorOfUInt32.create 64) [1, 1, 1]) [1]) []))
      = 12 ∧
    VectorOfUInt32.values_size_aligned
        (VectorOfUInt32.fastbin_finalize
          (VectorOfUInt32.str_set
            (VectorOfUInt32.values_set
              (VectorOfUInt32.values_set (VectorOfUInt32.create 64) [1, 1, 1]) [1]) []))
      = 16 ∧
    readByte
        (VectorOfUInt32.fastbin_finalize
          (VectorOfUInt32.str_set
            (VectorOfUInt32.values_set
              (VectorOfUInt32.values_set (VectorOfUInt32.create 64) [1, 1, 1]) [1]) []))
        20 = 1 := by
  decide

/-- Claim C9 amended: In a buffer produced by `create`, then each
variable-size field set once in schema order, then `finalize`, the 0..7
pad bytes at the end of each variable-length field region are zero
(they are zero from `create`'s zero-fill and no setter touches them;
overwriting a field with shorter content can leave stale non-zero pad
bytes, see the counterexample). -/
theorem fastbin_C9_pad_bytes_zero (n : Nat) (vals s : List Nat)
    (hnv : 4 * vals.length ≤ 2 ^ 56 - 16)
    (hns : s.length ≤ 2 ^ 56 - 16)
    (hbuf : 8 + alignUp8 (8 + 4 * vals.length) + alignUp8 (8 + s.length) ≤ n) :
    (∀ i, 16 + 4 * vals.length ≤ i →
      i < 8 + alignUp8 (8 + 4 * vals.length) →
      readByte (VectorOfUInt32.fastbin_finalize
        (VectorOfUInt32.str_set
          (VectorOfUInt32.values_set (VectorOfUInt32.create n) vals) s)) i = 0) ∧
    (∀ i, 8 + alignUp8 (8 + 4 * vals.length) + 8 + s.length ≤ i →
      i < 8 + alignUp8 (8 + 4 * vals.length) + alignUp8 (8 + s.length) →
      readByte (VectorOfUInt32.fastbin_finalize
        (VectorOfUInt32.str_set
          (VectorOfUInt32.values_set (VectorOfUInt32.create n) vals) s)) i = 0) := by
  set Lv := 4 * vals.length with hLv
  set Av := alignUp8 (8 + Lv) with hAv
  set Ls := s.length with hLs
  set As := alignUp8 (8 + Ls) with hAs
  have hAvge : 8 + Lv ≤ Av := alignUp8_ge _
  have hAsge : 8 + Ls ≤ As := alignUp8_ge _
  set b0 := VectorOfUInt32.create n with hb0
  set b1 := VectorOfUInt32.values_set b0 vals with hb1
  have hb0len : b0.length = n := by rw [hb0]; unfold VectorOfUInt32.create; simp
  have hsoff : VectorOfUInt32.str_offset b1 = 8 + Av :=
    VectorOfUInt32.str_offset_values_set b0 vals hnv (by omega)
  have hstr : VectorOfUInt32.str_set b1 s = writeVarRegion b1 (8 + Av) s := by
    unfold VectorOfUInt32.str_set; rw [hsoff]
  have hval : b1 = writeVarRegion b0 8 (VectorOfUInt32.u32Bytes vals) := by
    rw [hb1]; rfl
  have hu32len : (VectorOfUInt32.u32Bytes vals).length = Lv :=
    VectorOfUInt32.length_u32Bytes vals
  have key : ∀ i, 16 + Lv ≤ i → i < 8 + Av + As → ¬ (8 + Av ≤ i ∧ i < 8 + Av + 8 + Ls) →
      readByte (VectorOfUInt32.fastbin_finalize (VectorOfUInt32.str_set b1 s)) i = 0 := by
    intro i h1 h2 h3
    unfold VectorOfUInt32.fastbin_finalize storeU64
    rw [readByte_writeBytes_of_ge _ _ _ _ (by rw [length_leEncode]; omega)]
    rw [hstr]
    rcases Nat.lt_or_ge i (8 + Av) with hi | hi
    · rw [readByte_writeVarRegion_of_lt _ _ _ _ hi, hval,
        readByte_writeVarRegion_of_ge _ _ _ _ (by rw [hu32len]; omega),
        hb0]
      unfold VectorOfUInt32.create
      exact readByte_replicate n i
    · rw [readByte_writeVarRegion_of_ge _ _ _ _ (by omega), hval,
        readByte_writeVarRegion_of_ge _ _ _ _ (by rw [hu32len]; omega), hb0]
      unfold VectorOfUInt32.create
      exact readByte_replicate n i
  constructor
  · intro i h1 h2
    exact key i h1 (by omega) (by omega)
  · intro i h1 h2
    exact key i (by omega) (by omega) (by omega)

/-- Witness for C9 at a concrete input: byte 20 is the first pad byte of
the `values` region, byte 33 the first pad byte of the `str` region. -/
theorem fastbin_C9_witness :
    readByte (VectorOfUInt32.fastbin_finalize
      (VectorOfUInt32.str_set
        (VectorOfUInt32.values_set (VectorOfUInt32.create 48) [1]) [104])) 20 = 0 ∧
    readByte (VectorOfUInt32.fastbin_finalize
      (VectorOfUInt32.str_set
        (VectorOfUInt32.values_set (VectorOfUInt32.create 48) [1]) [104])) 33 = 0 :=
  have h := fastbin_C9_pad_bytes_zero 48 [1] [104] (by decide) (by decide) (by decide)
  ⟨h.1 20 (by decide) (by decide), h.2 33 (by decide) (by decide)⟩

/-- Claim C10: The `ChildFixed::field1` setter (an `int32` store) writes
only the 4 bytes at the field's offset: every byte at index `≥ 4`
(the slack bytes of the 8-byte slot and all of `field2`'s slot) is left
unchanged, and the 4 bytes written are exactly the little-endian bytes of
the value; slack bytes are zero only because `create` zero-filled the
buffer, not because the setter normalizes them. -/
theorem fastbin_C10_fixed_setter_frame (b : Buf) (v : Nat) :
    (∀ i, 4 ≤ i →
      readByte (ChildFixed.field1_set b v) i = readByte b i) ∧
    (4 ≤ b.length →
      readBytes (ChildFixed.field1_set b v) 0 4 = leEncode v 4) ∧
    (∀ n i, readByte (VectorOfUInt32.create n) i = 0) := by
  refine ⟨?_, ?_, ?_⟩
  · intro i hi
    unfold ChildFixed.field1_set ChildFixed.field1_offset
    exact readByte_writeBytes_of_ge _ _ _ _ (by rw [length_leEncode]; omega)
  · intro hlen
    unfold ChildFixed.field1_set ChildFixed.field1_offset
    have h := readBytes_writeBytes (leEncode v 4) b 0
      (by rw [length_leEncode]; omega) (leEncode_mem_lt v 4)
    rw [length_leEncode] at h
    exact h
  · intro n i
    unfold VectorOfUInt32.create
    exact readByte_replicate n i

/-- Witness for C10 at a concrete input: setting `field1 = 7` in a
16-byte `ChildFixed` buffer full of `9`s leaves byte 5 (slack) and byte 9
(inside `field2`) unchanged and writes `[7,0,0,0]` at offset 0. -/
theorem fastbin_C10_witness :
    readByte (ChildFixed.field1_set (List.replicate 16 9) 7) 5
      = readByte (List.replicate 16 9) 5 ∧
    readByte (ChildFixed.field1_set (List.replicate 16 9) 7) 9
      = readByte (List.replicate 16 9) 9 ∧
    readBytes (ChildFixed.field1_set (List.replicate 16 9) 7) 0 4 = leEncode 7 4 ∧
    readByte (VectorOfUInt32.create 16) 3 = 0 :=
  have h := fastbin_C10_fixed_setter_frame (List.replicate 16 9) 7
  ⟨h.1 5 (by decide), h.1 9 (by decide), h.2.1 (by decide), h.2.2 16 3⟩

/-! ### `struct_array<T>` (src/cpp/generated/_struct_array.hpp)

Layout: `[size_: u64][count_: u64][element bytes]...`.  An element value
is passed to `append` as its finalized byte list, whose length equals its
`fastbin_calc_binary_size()` (for a finalized record the stored size). -/

namespace struct_array

/-- Source `size_ref()`: the total byte size stored at offset 0. -/
def size_ref (b : Buf) : Nat := loadU64 b 0

/-- Source `count_ref()`: the element count stored at offset 8. -/
def count_ref (b : Buf) : Nat := loadU64 b 8

/-- Source `size()`: number of elements. -/
def size (b : Buf) : Nat := count_ref b

/-- Source `create`: zero-fill, then `size_ref() = 2 * sizeof(size_t)`. -/
def create (buffer_size : Nat) : Buf :=
  storeU64 (List.replicate buffer_size 0) 0 16

/-- Source `append(element)`: copy the element's bytes to the current end
(`bufferptr() + (size_ref() - 16)`), then `size_ref() += el_size`, then
`++count_ref()`.  No capacity check is performed (the assert in the
source is commented out). -/
def append (b : Buf) (el : List Nat) : Buf :=
  let dest := 16 + sub64 (size_ref b) 16
  let b1 := writeBytes b dest el
  let b2 := storeU64 b1 0 (size_ref b1 + el.length)
  storeU64 b2 8 (count_ref b2 + 1)

/-- The capacity condition of the commented-out assert in
`_struct_array.hpp` (live in `StructArray.hpp`):
`buffer_size - size_ref() >= el_size`. -/
def append_capacity_ok (buffer_size : Nat) (b : Buf) (el : List Nat) : Prop :=
  el.length ≤ sub64 buffer_size (size_ref b)

/-- Source `fastbin_binary_size()` (= `fastbin_calc_binary_size()`). -/
def fastbin_binary_size (b : Buf) : Nat := size_ref b

/-- Source `get_nth_element` for fixed-size element types: bounds check, then
`open(bufferptr() + n * fixed_size, fixed_size, false)`; the result is
the returned view as (buffer offset, buffer length). -/
def get_nth_element_fixed (b : Buf) (fixed_size n : Nat) : Except String (Nat × Nat) :=
  if n ≥ count_ref b then Except.error "Index out of bounds"
  else Except.ok (16 + n * fixed_size, fixed_size)

/-- The walk of `get_nth_element` for variable-size element types:
`n` iterations of `size = *(size_t*)current; current += size`, starting
from `current = bufferptr()`, `size = 0`. -/
def walkVar (b : Buf) : Nat → Nat → Nat → Nat × Nat
  | 0, current, sz => (current, sz)
  | Nat.succ m, current, _ => walkVar b m (current + loadU64 b current) (loadU64 b current)

/-- Source `get_nth_element` for variable-size element types: bounds check, then
the walk; returns `open(current, size, false)` as (offset, length). -/
def get_nth_element_var (b : Buf) (n : Nat) : Except String (Nat × Nat) :=
  if n ≥ count_ref b then Except.error "Index out of bounds"
  else Except.ok (walkVar b n 16 0)

/-- Source `appendAll`: `create` followed by a sequence of `append`s. -/
def appendAll (b : Buf) (els : List (List Nat)) : Buf := els.foldl append b

/-- Total content size of a list of elements. -/
def sizesSum (els : List (List Nat)) : Nat := (els.map List.length).sum

/-- A finalized element: at least the 8-byte size header, real byte
values, and its stored size (first 8 bytes, little-endian) equal to its
total byte length. -/
def selfSized (el : List Nat) : Prop :=
  8 ≤ el.length ∧ (∀ x ∈ el, x < 256) ∧ leDecode (el.take 8) = el.length

end struct_array

/-- Claim C6: Random-access indexing of a record array is bounds-checked
for both fixed-element and variable-element arrays: `n ≥ count` fails
with the out-of-range error, `n < count` succeeds. -/
theorem fastbin_C6_bounds_check (b : Buf) (fixed_size n : Nat) :
    ((struct_array.get_nth_element_fixed b fixed_size n).isOk
      = decide (n < struct_array.count_ref b)) ∧
    ((struct_array.get_nth_element_var b n).isOk
      = decide (n < struct_array.count_ref b)) ∧
    (struct_array.count_ref b ≤ n →
      struct_array.get_nth_element_fixed b fixed_size n
          = Except.error "Index out of bounds" ∧
      struct_array.get_nth_element_var b n
          = Except.error "Index out of bounds") := by
  unfold struct_array.get_nth_element_fixed struct_array.get_nth_element_var
  rcases Nat.lt_or_ge n (struct_array.count_ref b) with h | h
  · rw [if_neg (by omega), if_neg (by omega)]
    exact ⟨by simp [Except.isOk, Except.toBool, h], by simp [Except.isOk, Except.toBool, h],
      fun hc => absurd h (by omega)⟩
  · rw [if_pos (by omega), if_pos (by omega)]
    exact ⟨by simp [Except.isOk, Except.toBool, Nat.not_lt_of_le h],
      by simp [Except.isOk, Except.toBool, Nat.not_lt_of_le h],
      fun _ => ⟨rfl, rfl⟩⟩

/-- Witness for C6 at a concrete input: an array with 1 element (count
word stored at offset 8) rejects index 1 and accepts index 0. -/
theorem fastbin_C6_witness :
    (struct_array.get_nth_element_var
      (struct_array.appendAll (struct_array.create 64)
        [[24, 0, 0, 0, 0, 0, 0, 0] ++ List.replicate 16 5]) 1
      = Except.error "Index out of bounds") ∧
    ((struct_array.get_nth_element_var
      (struct_array.appendAll (struct_array.create 64)
        [[24, 0, 0, 0, 0, 0, 0, 0] ++ List.replicate 16 5]) 0).isOk = true) :=
  have h := fastbin_C6_bounds_check
    (struct_array.appendAll (struct_array.create 64)
      [[24, 0, 0, 0, 0, 0, 0, 0] ++ List.replicate 16 5]) 24 1
  have h0 := fastbin_C6_bounds_check
    (struct_array.appendAll (struct_array.create 64)
      [[24, 0, 0, 0, 0, 0, 0, 0] ++ List.replicate 16 5]) 24 0
  ⟨((h.2.2 (by decide)).2), by rw [h0.2.1]; decide⟩

/-- Claim C7: `struct_array::append`'s capacity assert is commented out:
appending a 24-byte element to an array whose 16-byte buffer has no room
fails the (disabled) assert condition, yet the append is performed —
the stored total size becomes 40, past the 16-byte buffer. -/
theorem fastbin_C7_append_unchecked :
    ¬ struct_array.append_capacity_ok 16 (struct_array.create 16)
        ([24, 0, 0, 0, 0, 0, 0, 0] ++ List.replicate 16 5) ∧
    struct_array.size_ref
        (struct_array.append (struct_array.create 16)
          ([24, 0, 0, 0, 0, 0, 0, 0] ++ List.replicate 16 5)) = 40 ∧
    struct_array.count_ref
        (struct_array.append (struct_array.create 16)
          ([24, 0, 0, 0, 0, 0, 0, 0] ++ List.replicate 16 5)) = 1 := by
  refine ⟨?_, by decide, by decide⟩
  unfold struct_array.append_capacity_ok
  decide

theorem readBytes_replicate_zero (n off m : Nat) :
    readBytes (List.replicate n 0) off m = List.replicate m 0 := by
  apply List.ext_getElem (by simp [readBytes])
  intro i h1 h2
  simp only [readBytes, List.getElem_map, List.getElem_range, List.getElem_replicate]
  exact readByte_replicate n (off + i)

theorem leDecode_replicate_zero (m : Nat) : leDecode (List.replicate m 0) = 0 := by
  induction m with
  | zero => rfl
  | succ m ih => simp [List.replicate_succ, leDecode, ih]

theorem loadU64_replicate_zero (n off : Nat) :
    loadU64 (List.replicate n 0) off = 0 := by
  unfold loadU64
  rw [readBytes_replicate_zero, leDecode_replicate_zero]

namespace struct_array

theorem sizesSum_append_one (l : List (List Nat)) (el : List Nat) :
    sizesSum (l ++ [el]) = sizesSum l + el.length := by
  simp [sizesSum]

theorem sizesSum_take_le (els : List (List Nat)) (k : Nat) :
    sizesSum (els.take k) ≤ sizesSum els := by
  have h : sizesSum els = sizesSum (els.take k) + sizesSum (els.drop k) := by
    unfold sizesSum
    conv_lhs => rw [← List.take_append_drop k els]
    rw [List.map_append, List.sum_append]
  omega

theorem sizesSum_take_succ (els : List (List Nat)) (k : Nat) (hk : k < els.length) :
    sizesSum (els.take (k + 1)) = sizesSum (els.take k) + (els.getD k []).length := by
  unfold sizesSum
  rw [List.take_succ, List.map_append, List.sum_append,
    List.getD_eq_getElem?_getD, List.getElem?_eq_getElem hk]
  simp

theorem sizesSum_take_append_one (l : List (List Nat)) (el : List Nat) (k : Nat)
    (hk : k ≤ l.length) :
    sizesSum ((l ++ [el]).take k) = sizesSum (l.take k) := by
  rw [List.take_append_eq_append_take, Nat.sub_eq_zero_of_le hk]
  simp

theorem length_le_sizesSum (l : List (List Nat))
    (h : ∀ el ∈ l, 8 ≤ el.length) : l.length ≤ sizesSum l := by
  induction l with
  | nil => simp [sizesSum]
  | cons e es ih =>
    have h1 : 8 ≤ e.length := h e (by simp)
    have h2 := ih (fun el hel => h el (by simp [hel]))
    simp only [sizesSum, List.map_cons, List.sum_cons, List.length_cons] at *
    omega

theorem length_append_el (b : Buf) (el : List Nat) :
    (append b el).length = b.length := by
  unfold append storeU64
  rw [length_writeBytes, length_writeBytes, length_writeBytes]

theorem length_appendAll (b : Buf) (els : List (List Nat)) :
    (appendAll b els).length = b.length := by
  induction els generalizing b with
  | nil => rfl
  | cons e es ih =>
    unfold appendAll at *
    rw [List.foldl_cons, ih, length_append_el]

theorem length_create (n : Nat) : (create n).length = n := by
  unfold create storeU64
  rw [length_writeBytes, List.length_replicate]

end struct_array

theorem length_storeU64 (b : Buf) (off v : Nat) :
    (storeU64 b off v).length = b.length := by
  unfold storeU64; rw [length_writeBytes]

theorem loadU64_storeU64_of_lt (b : Buf) (off off' v : Nat) (h : off + 8 ≤ off') :
    loadU64 (storeU64 b off' v) off = loadU64 b off := by
  unfold storeU64
  exact loadU64_writeBytes_of_lt _ _ _ _ h

theorem loadU64_storeU64_of_ge (b : Buf) (off off' v : Nat) (h : off' + 8 ≤ off) :
    loadU64 (storeU64 b off' v) off = loadU64 b off := by
  unfold storeU64
  exact loadU64_writeBytes_of_ge _ _ _ _ (by rw [length_leEncode]; omega)

theorem readBytes_storeU64_of_ge (b : Buf) (off off' n v : Nat) (h : off' + 8 ≤ off) :
    readBytes (storeU64 b off' v) off n = readBytes b off n := by
  unfold storeU64
  exact readBytes_writeBytes_of_ge _ _ _ _ _ (by rw [length_leEncode]; omega)

namespace struct_array

theorem size_ref_lt (b : Buf) : size_ref b < 2 ^ 64 := loadU64_lt b 0

theorem count_ref_lt (b : Buf) : count_ref b < 2 ^ 64 := loadU64_lt b 8

theorem append_eq (b : Buf) (el : List Nat) (h16 : 16 ≤ size_ref b) :
    append b el =
      storeU64
        (storeU64 (writeBytes b (size_ref b) el) 0
          (size_ref (writeBytes b (size_ref b) el) + el.length))
        8 (count_ref (storeU64 (writeBytes b (size_ref b) el) 0
          (size_ref (writeBytes b (size_ref b) el) + el.length)) + 1) := by
  have hdest : 16 + sub64 (size_ref b) 16 = size_ref b := by
    rw [sub64_eq h16 (size_ref_lt b)]; omega
  unfold append
  rw [hdest]

theorem size_ref_storeU64_eight (x : Buf) (c : Nat) :
    size_ref (storeU64 x 8 c) = size_ref x := by
  unfold size_ref
  exact loadU64_storeU64_of_lt _ _ _ _ (by omega)

theorem size_ref_storeU64_zero (x : Buf) (v : Nat) (h : 8 ≤ x.length) :
    size_ref (storeU64 x 0 v) = v % 2 ^ 64 := by
  unfold size_ref
  exact loadU64_storeU64 x 0 v (by omega)

theorem count_ref_storeU64_zero (x : Buf) (v : Nat) :
    count_ref (storeU64 x 0 v) = count_ref x := by
  unfold count_ref
  exact loadU64_storeU64_of_ge _ _ _ _ (by omega)

theorem count_ref_storeU64_eight (x : Buf) (c : Nat) (h : 16 ≤ x.length) :
    count_ref (storeU64 x 8 c) = c % 2 ^ 64 := by
  unfold count_ref
  exact loadU64_storeU64 x 8 c (by omega)

theorem size_ref_append (b : Buf) (el : List Nat)
    (h16 : 16 ≤ size_ref b) (hfit : size_ref b + el.length ≤ b.length)
    (hblen : b.length < 2 ^ 64) :
    size_ref (append b el) = size_ref b + el.length := by
  have hb1 : size_ref (writeBytes b (size_ref b) el) = size_ref b :=
    loadU64_writeBytes_of_lt el b 0 (size_ref b) (by omega)
  rw [append_eq b el h16, size_ref_storeU64_eight,
    size_ref_storeU64_zero _ _ (by rw [length_writeBytes]; omega), hb1]
  exact Nat.mod_eq_of_lt (by omega)

theorem count_ref_append (b : Buf) (el : List Nat)
    (h16 : 16 ≤ size_ref b) (hlen : 16 ≤ b.length) (hblen : b.length < 2 ^ 64)
    (hcnt : count_ref b + 1 < 2 ^ 64) :
    count_ref (append b el) = count_ref b + 1 := by
  have hcw : count_ref (writeBytes b (size_ref b) el) = count_ref b :=
    loadU64_writeBytes_of_lt el b 8 (size_ref b) (by omega)
  rw [append_eq b el h16,
    count_ref_storeU64_eight _ _ (by rw [length_storeU64, length_writeBytes]; omega),
    count_ref_storeU64_zero, hcw]
  exact Nat.mod_eq_of_lt hcnt

theorem readBytes_append_old (b : Buf) (el : List Nat) (off n : Nat)
    (h16 : 16 ≤ size_ref b) (hoff : 16 ≤ off) (hend : off + n ≤ size_ref b) :
    readBytes (append b el) off n = readBytes b off n := by
  rw [append_eq b el h16]
  rw [readBytes_storeU64_of_ge _ _ _ _ _ (by omega),
    readBytes_storeU64_of_ge _ _ _ _ _ (by omega),
    readBytes_writeBytes_of_lt _ _ _ _ _ (by omega)]

theorem readBytes_append_new (b : Buf) (el : List Nat)
    (h16 : 16 ≤ size_ref b) (hfit : size_ref b + el.length ≤ b.length)
    (hbytes : ∀ x ∈ el, x < 256) :
    readBytes (append b el) (size_ref b) el.length = el := by
  rw [append_eq b el h16]
  rw [readBytes_storeU64_of_ge _ _ _ _ _ (by omega),
    readBytes_storeU64_of_ge _ _ _ _ _ (by omega)]
  exact readBytes_writeBytes el b (size_ref b) hfit hbytes

theorem size_ref_create (n : Nat) (h : 8 ≤ n) : size_ref (create n) = 16 := by
  unfold size_ref create
  rw [loadU64_storeU64 _ _ _ (by rw [List.length_replicate]; omega)]
  decide

theorem count_ref_create (n : Nat) : count_ref (create n) = 0 := by
  unfold count_ref create
  rw [loadU64_storeU64_of_ge _ _ _ _ (by omega), loadU64_replicate_zero]

/-- Invariant of `create` followed by a sequence of `append`s of
finalized elements: stored total size, stored count, and the bytes of
each appended element in place. -/
theorem appendAll_invariant (N : Nat) (hN : N < 2 ^ 64) (els : List (List Nat)) :
    16 + sizesSum els ≤ N → (∀ el ∈ els, selfSized el) →
    size_ref (appendAll (create N) els) = 16 + sizesSum els ∧
    count_ref (appendAll (create N) els) = els.length ∧
    ∀ k, k < els.length →
      readBytes (appendAll (create N) els) (16 + sizesSum (els.take k))
          (els.getD k []).length = els.getD k [] := by
  induction els using List.reverseRecOn with
  | nil =>
    intro hfit _
    refine ⟨?_, ?_, ?_⟩
    · show size_ref (create N) = 16 + sizesSum []
      rw [size_ref_create N (by omega)]; rfl
    · exact count_ref_create N
    · intro k hk; simp at hk
  | append_singleton l el ih =>
    intro hfit hels
    have hsum : sizesSum (l ++ [el]) = sizesSum l + el.length := sizesSum_append_one l el
    have hfit' : 16 + sizesSum l ≤ N := by omega
    have hels' : ∀ e ∈ l, selfSized e := fun e he => hels e (by simp [he])
    obtain ⟨hsize, hcount, helems⟩ := ih hfit' hels'
    have hself : selfSized el := hels el (by simp)
    have hBlen : (appendAll (create N) l).length = N := by
      rw [length_appendAll, length_create]
    have happ : appendAll (create N) (l ++ [el]) = append (appendAll (create N) l) el := by
      unfold appendAll
      rw [List.foldl_append]
      rfl
    have h16 : 16 ≤ size_ref (appendAll (create N) l) := by omega
    have hfitb : size_ref (appendAll (create N) l) + el.length ≤
        (appendAll (create N) l).length := by
      rw [hsize, hBlen]; omega
    have hcnt1 : count_ref (appendAll (create N) l) + 1 < 2 ^ 64 := by
      have h8 : ∀ e ∈ l, 8 ≤ e.length := fun e he => (hels' e he).1
      have := length_le_sizesSum l h8
      omega
    refine ⟨?_, ?_, ?_⟩
    · rw [happ, size_ref_append _ _ h16 hfitb (by omega), hsize, hsum]; omega
    · rw [happ, count_ref_append _ _ h16 (by omega) (by omega) hcnt1, hcount]
      simp
    · intro k hk
      simp only [List.length_append, List.length_cons, List.length_nil] at hk
      rcases Nat.lt_or_ge k l.length with hkl | hkl
      · -- an element appended earlier: its bytes are untouched
        have htake : sizesSum ((l ++ [el]).take k) = sizesSum (l.take k) :=
          sizesSum_take_append_one l el k (by omega)
        have hgetD : (l ++ [el]).getD k [] = l.getD k [] := by
          rw [List.getD_eq_getElem?_getD, List.getD_eq_getElem?_getD,
            List.getElem?_append_left hkl]
        have hend : 16 + sizesSum (l.take k) + (l.getD k []).length
            ≤ size_ref (appendAll (create N) l) := by
          rw [hsize]
          have h1 := sizesSum_take_succ l k hkl
          have h2 := sizesSum_take_le l (k + 1)
          omega
        rw [happ, htake, hgetD,
          readBytes_append_old _ _ _ _ h16 (by omega) hend]
        exact helems k hkl
      · -- the new element
        have hkeq : k = l.length := by omega
        subst hkeq
        have htake : (l ++ [el]).take l.length = l := List.take_left l [el]
        have hgetD : (l ++ [el]).getD l.length [] = el := by
          rw [List.getD_eq_getElem?_getD, List.getElem?_append_right (Nat.le_refl _)]
          simp
        rw [happ, htake, hgetD, show 16 + sizesSum l = size_ref (appendAll (create N) l)
          from hsize.symm]
        exact readBytes_append_new _ _ h16 hfitb hself.2.1

/-- The `get_nth_element` walk lands exactly at the start of each
appended element, carrying the previously read element size. -/
theorem walkVar_offsets (N : Nat) (hN : N < 2 ^ 64) (els : List (List Nat))
    (hfit : 16 + sizesSum els ≤ N) (hels : ∀ el ∈ els, selfSized el) :
    ∀ k j, j + k ≤ els.length → ∀ sz,
      walkVar (appendAll (create N) els) k (16 + sizesSum (els.take j)) sz
        = (16 + sizesSum (els.take (j + k)),
           if k = 0 then sz else (els.getD (j + k - 1) []).length) := by
  obtain ⟨hsize, hcount, helems⟩ := appendAll_invariant N hN els hfit hels
  have hhdr : ∀ j, j < els.length →
      loadU64 (appendAll (create N) els) (16 + sizesSum (els.take j))
        = (els.getD j []).length := by
    intro j hj
    have hgd : els.getD j [] = els[j] := by
      rw [List.getD_eq_getElem?_getD, List.getElem?_eq_getElem hj]; rfl
    have hmem : els.getD j [] ∈ els := by rw [hgd]; exact List.getElem_mem hj
    obtain ⟨h8, hbytes, hdec⟩ := hels _ hmem
    have hrb := helems j hj
    have hlen8 : 8 + ((els.getD j []).length - 8) = (els.getD j []).length := by omega
    have hsplit := readBytes_add (appendAll (create N) els)
      (16 + sizesSum (els.take j)) 8 ((els.getD j []).length - 8)
    rw [hlen8, hrb] at hsplit
    have h8len : (readBytes (appendAll (create N) els)
        (16 + sizesSum (els.take j)) 8).length = 8 := length_readBytes _ _ _
    have htake : (els.getD j []).take 8
        = readBytes (appendAll (create N) els) (16 + sizesSum (els.take j)) 8 := by
      rw [hsplit]
      exact List.take_left' h8len
    unfold loadU64
    rw [← htake, hdec]
  intro k
  induction k with
  | zero =>
    intro j hj sz
    simp [walkVar]
  | succ m ih =>
    intro j hj sz
    have hj' : j < els.length := by omega
    simp only [walkVar]
    rw [hhdr j hj']
    have hnext : 16 + sizesSum (els.take j) + (els.getD j []).length
        = 16 + sizesSum (els.take (j + 1)) := by
      have := sizesSum_take_succ els j hj'
      omega
    rw [hnext, ih (j + 1) (by omega) ((els.getD j []).length)]
    rw [if_neg (Nat.succ_ne_zero m)]
    have hsecond : (if m = 0 then (els.getD j []).length
        else (els.getD (j + 1 + m - 1) []).length)
        = (els.getD (j + (m + 1) - 1) []).length := by
      cases m with
      | zero => rw [if_pos rfl, show j + (0 + 1) - 1 = j by omega]
      | succ i =>
        rw [if_neg (by omega), show j + 1 + (i + 1) - 1 = j + (i + 1 + 1) - 1 by omega]
    rw [hsecond, show j + 1 + m = j + (m + 1) by omega]

end struct_array

/-- Claim C3 counterexample: For a variable-element array holding a
16-byte element then a 24-byte element, indexing element 1 returns a view
whose recorded buffer length is 16 — the previously read element's stored
size — not the element's own 24 bytes, so the view is not "exactly the
k-th appended element's bytes" (for k = 0 that length is even 0). -/
theorem fastbin_C3_counterexample :
    struct_array.get_nth_element_var
        (struct_array.appendAll (struct_array.create 64)
          [[16, 0, 0, 0, 0, 0, 0, 0, 1, 2, 3, 4, 5, 6, 7, 8],
           [24, 0, 0, 0, 0, 0, 0, 0, 9, 9, 9, 9, 9, 9, 9, 9, 9, 9, 9, 9, 9, 9, 9, 9]]) 1
      = Except.ok (32, 16) ∧
    ([24, 0, 0, 0, 0, 0, 0, 0, 9, 9, 9, 9, 9, 9, 9, 9, 9, 9, 9, 9, 9, 9, 9, 9] : List Nat).length
      = 24 :=
  ⟨rfl, rfl⟩

/-- Claim C3 amended: After `create` and `n` appends of finalized
elements with sizes `s_1..s_n`, `size()` is `n`, `fastbin_binary_size()`
is `16 + Σ s_i`; indexing `k < n` succeeds, positions the returned view
exactly at the start of the `k`-th appended element (whose bytes are
unchanged there), but records as the view's buffer length the previously
read element size (0 for `k = 0`), not the element's own size; for
arrays of fixed-size elements the returned view is exactly
`(16 + k * fs, fs)`. -/
theorem fastbin_C3_array_count_size_index (N : Nat) (els : List (List Nat))
    (hN : N < 2 ^ 64)
    (hfit : 16 + struct_array.sizesSum els ≤ N)
    (hels : ∀ el ∈ els, struct_array.selfSized el) :
    struct_array.size (struct_array.appendAll (struct_array.create N) els) = els.length ∧
    struct_array.fastbin_binary_size (struct_array.appendAll (struct_array.create N) els)
      = 16 + struct_array.sizesSum els ∧
    (∀ k, k < els.length →
      struct_array.get_nth_element_var (struct_array.appendAll (struct_array.create N) els) k
        = Except.ok (16 + struct_array.sizesSum (els.take k),
            if k = 0 then 0 else (els.getD (k - 1) []).length) ∧
      readBytes (struct_array.appendAll (struct_array.create N) els)
          (16 + struct_array.sizesSum (els.take k)) (els.getD k []).length
        = els.getD k []) ∧
    (∀ fs, (∀ el ∈ els, el.length = fs) → ∀ k, k < els.length →
      struct_array.get_nth_element_fixed
          (struct_array.appendAll (struct_array.create N) els) fs k
        = Except.ok (16 + k * fs, fs) ∧
      16 + struct_array.sizesSum (els.take k) = 16 + k * fs) := by
  obtain ⟨hsize, hcount, helems⟩ := struct_array.appendAll_invariant N hN els hfit hels
  have hwalk := struct_array.walkVar_offsets N hN els hfit hels
  refine ⟨hcount, hsize, ?_, ?_⟩
  · intro k hk
    refine ⟨?_, helems k hk⟩
    unfold struct_array.get_nth_element_var
    rw [if_neg (by rw [hcount]; omega)]
    have h := hwalk k 0 (by omega) 0
    simp only [List.take_zero, Nat.zero_add] at h
    have h0 : struct_array.sizesSum ([] : List (List Nat)) = 0 := rfl
    rw [h0, Nat.add_zero] at h
    rw [h]
  · intro fs hfs k hk
    have huni : ∀ j, j ≤ els.length → struct_array.sizesSum (els.take j) = j * fs := by
      intro j
      induction j with
      | zero =>
        intro _
        rw [List.take_zero]
        simp [struct_array.sizesSum]
      | succ i ih =>
        intro hj
        rw [struct_array.sizesSum_take_succ els i (by omega), ih (by omega)]
        have hgd : els.getD i [] = els[i] := by
          rw [List.getD_eq_getElem?_getD, List.getElem?_eq_getElem (by omega : i < els.length)]
          rfl
        rw [hgd, hfs _ (List.getElem_mem _)]
        ring
    refine ⟨?_, by rw [huni k (by omega)]⟩
    unfold struct_array.get_nth_element_fixed
    rw [if_neg (by rw [hcount]; omega)]

/-- Witness for C3 at a concrete input: the two-element array of the
counterexample, indexed at 0 and 1. -/
theorem fastbin_C3_witness :
    struct_array.size
        (struct_array.appendAll (struct_array.create 64)
          [[16, 0, 0, 0, 0, 0, 0, 0, 1, 2, 3, 4, 5, 6, 7, 8],
           [24, 0, 0, 0, 0, 0, 0, 0, 9, 9, 9, 9, 9, 9, 9, 9, 9, 9, 9, 9, 9, 9, 9, 9]]) = 2 ∧
    struct_array.fastbin_binary_size
        (struct_array.appendAll (struct_array.create 64)
          [[16, 0, 0, 0, 0, 0, 0, 0, 1, 2, 3, 4, 5, 6, 7, 8],
           [24, 0, 0, 0, 0, 0, 0, 0, 9, 9, 9, 9, 9, 9, 9, 9, 9, 9, 9, 9, 9, 9, 9, 9]]) = 56 ∧
    readBytes
        (struct_array.appendAll (struct_array.create 64)
          [[16, 0, 0, 0, 0, 0, 0, 0, 1, 2, 3, 4, 5, 6, 7, 8],
           [24, 0, 0, 0, 0, 0, 0, 0, 9, 9, 9, 9, 9, 9, 9, 9, 9, 9, 9, 9, 9, 9, 9, 9]])
        16 16 = [16, 0, 0, 0, 0, 0, 0, 0, 1, 2, 3, 4, 5, 6, 7, 8] :=
  have h := fastbin_C3_array_count_size_index 64
    [[16, 0, 0, 0, 0, 0, 0, 0, 1, 2, 3, 4, 5, 6, 7, 8],
     [24, 0, 0, 0, 0, 0, 0, 0, 9, 9, 9, 9, 9, 9, 9, 9, 9, 9, 9, 9, 9, 9, 9, 9]]
    (by decide) (by decide)
    (by intro el hel
        rcases List.mem_cons.mp hel with h1 | h1
        · subst h1; unfold struct_array.selfSized; refine ⟨by decide, by decide, by decide⟩
        · rcases List.mem_cons.mp h1 with h2 | h2
          · subst h2; unfold struct_array.selfSized; refine ⟨by decide, by decide, by decide⟩
          · simp at h2)
  ⟨h.1, h.2.1, (h.2.2.1 0 (by decide)).2⟩

/-! ### `Variant<int32_t, std::string_view>` (src/unnamed/part_000)

Header word at offset 0 packs the total size (high 56 bits, shifted left
by 8) and the active alternative index (low byte); payload follows at
offset 8.  Declared ordinals: `int32_t` is 0, `std::string_view` is 1. -/

namespace VariantI32Str

/-- Protected setter `size(size_t)`: clears all but the low byte, then
ors in `size << 8`. -/
def size_set (b : Buf) (s : Nat) : Buf :=
  let sai := loadU64 b 0
  storeU64 b 0 ((sai &&& 0xFF) ||| (s <<< 8))

/-- Protected setter `index(size_t)`: clears the low byte, then ors in
the index. -/
def index_set (b : Buf) (i : Nat) : Buf :=
  let sai := loadU64 b 0
  storeU64 b 0 ((sai &&& 0xFFFFFFFFFFFFFF00) ||| i)

/-- Source `Variant::create`: zero-fill, then initial size `sizeof(size_t)`. -/
def create (buffer_size : Nat) : Buf :=
  size_set (List.replicate buffer_size 0) 8

/-- Source `index()`: low byte of the header word. -/
def index_get (b : Buf) : Nat := loadU64 b 0 &&& 0xFF

/-- Protected `size()`: header word shifted right by 8. -/
def sizeGet (b : Buf) : Nat := loadU64 b 0 >>> 8

/-- Source `data_size()` = `size() - sizeof(size_t)`. -/
def data_size (b : Buf) : Nat := sub64 (sizeGet b) 8

/-- Source `empty()` = `data_size() == 0`. -/
def empty (b : Buf) : Bool := data_size b == 0

/-- Source `holds_alternative<int32_t>()` = `!empty() && index() == 0`. -/
def holds_int32 (b : Buf) : Bool := !empty b && (index_get b == 0)

/-- Source `holds_alternative<std::string_view>()` = `!empty() && index() == 1`. -/
def holds_string_view (b : Buf) : Bool := !empty b && (index_get b == 1)

/-- Source `set<int32_t>(v)`: index 0, size `8 + 4`, copy the 4 value bytes. -/
def set_int32 (b : Buf) (v : Nat) : Buf :=
  writeBytes (size_set (index_set b 0) (8 + 4)) 8 (leEncode v 4)

/-- Source `set<std::string_view>(v)`: index 1, size `8 + v.size()`, copy the
string bytes. -/
def set_string_view (b : Buf) (s : List Nat) : Buf :=
  writeBytes (size_set (index_set b 1) (8 + s.length)) 8 s

/-- Source `get<std::string_view>()`: `data_size()` payload bytes at offset 8. -/
def get_string_view (b : Buf) : List Nat := readBytes b 8 (data_size b)

/-- Source `fastbin_binary_size()` = `size()`. -/
def fastbin_binary_size (b : Buf) : Nat := sizeGet b

theorem loadU64_index_set (b : Buf) (i : Nat) (hlen : 8 ≤ b.length) (hi : i < 2 ^ 8) :
    loadU64 (index_set b i) 0 = 2 ^ 8 * (loadU64 b 0 / 2 ^ 8) + i := by
  have hsai := loadU64_lt b 0
  rw [show index_set b i
      = storeU64 b 0 ((loadU64 b 0 &&& 0xFFFFFFFFFFFFFF00) ||| i) from rfl]
  rw [show (0xFFFFFFFFFFFFFF00 : Nat) = 2 ^ 64 - 2 ^ 8 by norm_num,
    land_high_mask hsai (by norm_num),
    ← Nat.mul_add_lt_is_or hi (loadU64 b 0 / 2 ^ 8),
    loadU64_storeU64 _ _ _ (by omega)]
  have hdiv : loadU64 b 0 / 2 ^ 8 < 2 ^ 56 := by
    apply Nat.div_lt_of_lt_mul
    calc loadU64 b 0 < 2 ^ 64 := hsai
      _ = 2 ^ 8 * 2 ^ 56 := by norm_num
  exact Nat.mod_eq_of_lt (by
    have h1 : 2 ^ 8 * (loadU64 b 0 / 2 ^ 8) ≤ 2 ^ 8 * (2 ^ 56 - 1) :=
      Nat.mul_le_mul_left _ (by omega)
    have h2 : (2 ^ 8 : Nat) * (2 ^ 56 - 1) = 2 ^ 64 - 2 ^ 8 := by norm_num
    omega)

theorem loadU64_size_set (b : Buf) (s : Nat) (hlen : 8 ≤ b.length) (hs : s < 2 ^ 56) :
    loadU64 (size_set b s) 0 = loadU64 b 0 % 2 ^ 8 + s * 2 ^ 8 := by
  rw [show size_set b s
      = storeU64 b 0 ((loadU64 b 0 &&& 0xFF) ||| (s <<< 8)) from rfl]
  rw [show (0xFF : Nat) = 2 ^ 8 - 1 by norm_num,
    Nat.and_pow_two_sub_one_eq_mod,
    lor_shiftLeft_eq_add (Nat.mod_lt _ (by norm_num)),
    loadU64_storeU64 _ _ _ (by omega)]
  exact Nat.mod_eq_of_lt (by
    have h1 : loadU64 b 0 % 2 ^ 8 < 2 ^ 8 := Nat.mod_lt _ (by norm_num)
    have h2 : s * 2 ^ 8 ≤ (2 ^ 56 - 1) * 2 ^ 8 :=
      Nat.mul_le_mul_right _ (by omega)
    have h3 : (2 ^ 56 - 1) * 2 ^ 8 = 2 ^ 64 - 2 ^ 8 := by norm_num
    omega)

/-- Header word after `set<string_view>` (payload length `L < 2^56 - 8`):
`(8 + L) << 8 | 1`. -/
theorem loadU64_set_string_view (b : Buf) (s : List Nat)
    (hlen : 8 ≤ b.length) (hL : s.length < 2 ^ 56 - 8) :
    loadU64 (set_string_view b s) 0 = 1 + (8 + s.length) * 2 ^ 8 := by
  unfold set_string_view
  rw [loadU64_writeBytes_of_lt _ _ _ _ (by omega)]
  have hilen : (index_set b 1).length = b.length := length_storeU64 _ _ _
  rw [loadU64_size_set _ _ (by omega) (by omega),
    loadU64_index_set b 1 hlen (by norm_num),
    Nat.mul_add_mod]
  norm_num

/-- Header word after `set<int32_t>`: `12 << 8 | 0`. -/
theorem loadU64_set_int32 (b : Buf) (v : Nat) (hlen : 8 ≤ b.length) :
    loadU64 (set_int32 b v) 0 = 12 * 2 ^ 8 := by
  unfold set_int32
  rw [loadU64_writeBytes_of_lt _ _ _ _ (by omega)]
  have hilen : (index_set b 0).length = b.length := length_storeU64 _ _ _
  rw [loadU64_size_set _ _ (by omega) (by norm_num),
    loadU64_index_set b 0 hlen (by norm_num),
    Nat.add_zero, Nat.mul_mod_right]
  norm_num

end VariantI32Str

/-- Claim C5 counterexample: After `set<std::string_view>("")` the
variant does not hold the string alternative: the payload size is 0, so
`empty()` is true and `holds_alternative<std::string_view>()` is false,
contradicting the claim for the empty string value. -/
theorem fastbin_C5_counterexample :
    VariantI32Str.holds_string_view
      (VariantI32Str.set_string_view (VariantI32Str.create 16) []) = false := by
  decide

/-- Claim C5 amended: For the variant over `{int32, string}`: after
`set<T>(v)` with a non-empty payload (any `int32`; a string of length
`≥ 1`), `holds_alternative<T>()` is true, `holds_alternative<U>()` is
false for the other alternative, `index()` is `T`'s declared ordinal
(0 for `int32`, 1 for `string_view`), and `binary_size()` is
`8 + payload size`; in particular a 5-byte string gives 13.  (For an
empty payload `holds_alternative<T>()` is false, see counterexample.) -/
theorem fastbin_C5_variant_exclusivity (b : Buf) (s : List Nat) (v : Nat)
    (hlen : 8 ≤ b.length) (hs1 : 1 ≤ s.length) (hsB : s.length < 2 ^ 56 - 8) :
    VariantI32Str.holds_string_view (VariantI32Str.set_string_view b s) = true ∧
    VariantI32Str.holds_int32 (VariantI32Str.set_string_view b s) = false ∧
    VariantI32Str.index_get (VariantI32Str.set_string_view b s) = 1 ∧
    VariantI32Str.fastbin_binary_size (VariantI32Str.set_string_view b s)
      = 8 + s.length ∧
    VariantI32Str.holds_int32 (VariantI32Str.set_int32 b v) = true ∧
    VariantI32Str.holds_string_view (VariantI32Str.set_int32 b v) = false ∧
    VariantI32Str.index_get (VariantI32Str.set_int32 b v) = 0 ∧
    VariantI32Str.fastbin_binary_size (VariantI32Str.set_int32 b v) = 12 := by
  have hstr := VariantI32Str.loadU64_set_string_view b s hlen hsB
  have hint := VariantI32Str.loadU64_set_int32 b v hlen
  have hidx_s : VariantI32Str.index_get (VariantI32Str.set_string_view b s) = 1 := by
    unfold VariantI32Str.index_get
    rw [hstr, show (0xFF : Nat) = 2 ^ 8 - 1 by norm_num,
      Nat.and_pow_two_sub_one_eq_mod, Nat.add_mul_mod_self_right]
    decide
  have hsize_s : VariantI32Str.sizeGet (VariantI32Str.set_string_view b s)
      = 8 + s.length := by
    unfold VariantI32Str.sizeGet
    rw [hstr, Nat.shiftRight_eq_div_pow,
      Nat.add_mul_div_right _ _ (by norm_num : (0:Nat) < 2 ^ 8)]
    norm_num
  have hdata_s : VariantI32Str.data_size (VariantI32Str.set_string_view b s)
      = s.length := by
    unfold VariantI32Str.data_size
    rw [hsize_s, sub64_eq (by omega) (by omega)]
    omega
  have hidx_i : VariantI32Str.index_get (VariantI32Str.set_int32 b v) = 0 := by
    unfold VariantI32Str.index_get
    rw [hint]
    decide
  have hsize_i : VariantI32Str.sizeGet (VariantI32Str.set_int32 b v) = 12 := by
    unfold VariantI32Str.sizeGet
    rw [hint]
    decide
  have hdata_i : VariantI32Str.data_size (VariantI32Str.set_int32 b v) = 4 := by
    unfold VariantI32Str.data_size
    rw [hsize_i]
    decide
  have hne : (s.length == 0) = false := by
    simp only [beq_eq_false_iff_ne, ne_eq]
    omega
  refine ⟨?_, ?_, hidx_s, hsize_s, ?_, ?_, hidx_i, hsize_i⟩
  · unfold VariantI32Str.holds_string_view VariantI32Str.empty
    rw [hdata_s, hidx_s, hne]
    rfl
  · unfold VariantI32Str.holds_int32 VariantI32Str.empty
    rw [hdata_s, hidx_s, hne]
    rfl
  · unfold VariantI32Str.holds_int32 VariantI32Str.empty
    rw [hdata_i, hidx_i]
    rfl
  · unfold VariantI32Str.holds_string_view VariantI32Str.empty
    rw [hdata_i, hidx_i]
    rfl

/-- Witness for C5 at a concrete input: the 5-byte string `"test1"`
(bytes 116,101,115,116,49) in a fresh 16-byte variant, and `int32 42`. -/
theorem fastbin_C5_witness :
    VariantI32Str.holds_string_view
      (VariantI32Str.set_string_view (VariantI32Str.create 16)
        [116, 101, 115, 116, 49]) = true ∧
    VariantI32Str.index_get
      (VariantI32Str.set_string_view (VariantI32Str.create 16)
        [116, 101, 115, 116, 49]) = 1 ∧
    VariantI32Str.fastbin_binary_size
      (VariantI32Str.set_string_view (VariantI32Str.create 16)
        [116, 101, 115, 116, 49]) = 13 ∧
    VariantI32Str.holds_int32
      (VariantI32Str.set_int32 (VariantI32Str.create 16) 42) = true ∧
    VariantI32Str.index_get
      (VariantI32Str.set_int32 (VariantI32Str.create 16) 42) = 0 :=
  have h := fastbin_C5_variant_exclusivity (VariantI32Str.create 16)
    [116, 101, 115, 116, 49] 42 (by decide) (by decide) (by decide)
  ⟨h.1, h.2.2.1, h.2.2.2.1, h.2.2.2.2.1, h.2.2.2.2.2.2.1⟩

/-! ### Buffer ownership / move / destruction (claim C8)

A view is `(buffer, buffer_size, owns_buffer)`; `buffer = none` models a
null handle, `some a` a live allocation `a`.  Each move operation below
is translated from the corresponding C++ special member; the `Option
Nat` result of an assignment or destructor is the allocation it
releases (`none` = nothing released). -/

structure View where
  buffer : Option Nat
  buffer_size : Nat
  owns_buffer : Bool
deriving DecidableEq

/-- Source `BufferStored` move constructor (src/unnamed/part_000, lines 38-44):
takes all three members; resets the source to `nullptr`, 0, `false`. -/
def moveCtorBufferStored (other : View) : View × View :=
  (⟨other.buffer, other.buffer_size, other.owns_buffer⟩, ⟨none, 0, false⟩)

/-- Source `BufferStored` move assignment (lines 45-61): releases the
destination's old buffer iff it owned a non-null handle, takes over the
source's members, resets the source to `nullptr`, 0, `false`.  Result is
`(new this, new other, released allocation)`. -/
def moveAssignBufferStored (this_ other : View) : View × View × Option Nat :=
  (⟨other.buffer, other.buffer_size, other.owns_buffer⟩, ⟨none, 0, false⟩,
    if this_.owns_buffer then this_.buffer else none)

/-- Source `ChildFixed` move constructor (ChildFixed.hpp, lines 51-56; the same
code appears in `StreamOrderbook` and `struct_array`): nulls the
source's handle and zeroes its length, but leaves `owns_buffer`
untouched. -/
def moveCtorChildFixed (other : View) : View × View :=
  (⟨other.buffer, other.buffer_size, other.owns_buffer⟩, ⟨none, 0, other.owns_buffer⟩)

/-- Source `StreamOrderbook` move assignment (StreamOrderbook.hpp, lines
61-73): `delete[] buffer` unconditionally — even a non-owning
destination releases its aliased allocation — and the source's
`owns_buffer` flag is not reset. -/
def moveAssignStreamOrderbook (this_ other : View) : View × View × Option Nat :=
  (⟨other.buffer, other.buffer_size, other.owns_buffer⟩,
    ⟨none, 0, other.owns_buffer⟩, this_.buffer)

/-- Destructor (`~BufferStored`, `~ChildFixed`, `~struct_array`, ...):
releases the allocation iff `owns_buffer && buffer != nullptr`. -/
def destructorReleases (v : View) : Option Nat :=
  if v.owns_buffer then v.buffer else none

/-- Claim C8 counterexample: The claim fails on two of its own cited
sources: `ChildFixed`'s move constructor leaves the moved-from view with
`owns_buffer = true` (not "non-owning"), and `StreamOrderbook`'s move
assignment releases the destination's previous allocation even when the
destination is a non-owning alias (releases allocation 7 below). -/
theorem fastbin_C8_counterexample :
    (moveCtorChildFixed ⟨some 3, 16, true⟩).2.owns_buffer = true ∧
    (moveAssignStreamOrderbook ⟨some 7, 16, false⟩ ⟨some 9, 32, true⟩).2.2 = some 7 := by
  decide

/-- Claim C8 amended: `BufferStored`'s move constructor and assignment
transfer handle, length and ownership flag and leave the source
non-owning, zero-length and inert; destruction releases exactly when the
ownership flag is set and the handle is non-null, never for a non-owning
alias, and `BufferStored` move assignment releases the destination's old
buffer under the same condition.  The hand-written movers of the
generated types (`ChildFixed`/`StreamOrderbook`/`struct_array` move
constructors) transfer all three members and null the source's handle
and length but leave its ownership flag unchanged — the source is still
inert (destroying it releases nothing, its handle being null); and
`StreamOrderbook`'s move assignment releases the destination's previous
handle unconditionally. -/
theorem fastbin_C8_move_ownership (src dst : View) :
    (moveCtorBufferStored src).1 = src ∧
    (moveCtorBufferStored src).2 = ⟨none, 0, false⟩ ∧
    destructorReleases (moveCtorBufferStored src).2 = none ∧
    (moveAssignBufferStored dst src).1 = src ∧
    (moveAssignBufferStored dst src).2.1 = ⟨none, 0, false⟩ ∧
    (moveAssignBufferStored dst src).2.2
      = (if dst.owns_buffer then dst.buffer else none) ∧
    (∀ a, destructorReleases src = some a ↔
      (src.owns_buffer = true ∧ src.buffer = some a)) ∧
    (src.owns_buffer = false → destructorReleases src = none) ∧
    (moveCtorChildFixed src).1 = src ∧
    (moveCtorChildFixed src).2 = ⟨none, 0, src.owns_buffer⟩ ∧
    destructorReleases (moveCtorChildFixed src).2 = none ∧
    (moveAssignStreamOrderbook dst src).1 = src ∧
    (moveAssignStreamOrderbook dst src).2.2 = dst.buffer := by
  refine ⟨rfl, rfl, rfl, rfl, rfl, rfl, ?_, ?_, rfl, rfl, ?_, rfl, rfl⟩
  · intro a
    unfold destructorReleases
    cases h : src.owns_buffer <;> simp [h]
  · intro h
    unfold destructorReleases
    rw [h]
    rfl
  · unfold destructorReleases moveCtorChildFixed
    cases h : src.owns_buffer <;> simp [h]

/-- Witness for C8 at a concrete input: moving from an owning view over
allocation 5. -/
theorem fastbin_C8_witness :
    (moveCtorBufferStored ⟨some 5, 24, true⟩).2 = (⟨none, 0, false⟩ : View) ∧
    destructorReleases (⟨some 5, 24, false⟩ : View) = none ∧
    (destructorReleases (⟨some 5, 24, true⟩ : View) = some 5 ↔
      ((⟨some 5, 24, true⟩ : View).owns_buffer = true ∧
        (⟨some 5, 24, true⟩ : View).buffer = some 5)) :=
  have h := fastbin_C8_move_ownership ⟨some 5, 24, true⟩ ⟨some 6, 8, false⟩
  have h2 := fastbin_C8_move_ownership ⟨some 5, 24, false⟩ ⟨some 6, 8, false⟩
  ⟨h.1 ▸ h.2.1, h2.2.2.2.2.2.2.2.1 rfl, h.2.2.2.2.2.2.1 5⟩

end Fastbin
